import Mathlib

/-!
Shallow embedding of the template-to-graph normalizer from
`packages/template/src/jsx.ts`, together with proofs about it.

The JS/TS source is translated as follows:
* JSX element trees become the mutual inductive `JsxNode` / `JsxForest`
  (a child is a plain string, a `PlaceholderValue`, an `ExpressionValue`,
  or a nested element).  Object identity of an element (used by the
  `ids` map, which is keyed on the element object itself) is modelled by
  an explicit `key : Nat` identity token carried by every element.
* The typed wrapper classes (`ExpressionValue`, `ParameterValue`,
  `ResourceValue`, `ActionValue`, `AssetValue`, `PageValue`) and the
  runtime `typeof` shapes (string / number / boolean / everything else)
  are disjoint at runtime, so an attribute value is the inductive
  `AttrValue`; the `json` constructor stands for every value shape not
  matched by one of the nine explicit checks.  A style-declaration list
  (the value of the reserved `ws:style` attribute) gets its own
  constructor.
* The mutable state of `renderTemplate` (counter `lastId`, identity map
  `ids`, and the six accumulated collections) becomes the explicit
  `RenderState` record, threaded through the traversal.
* `traverseJsx` is split into the mutually recursive `traverseJsx`
  (one node) and `traverseJsxList` (the loops over a children array);
  the inlined callback of `renderTemplate` becomes `processElement`.
  In the source, the loop at the end of the concrete-element branch
  re-traverses structural children and discards the returned reference
  list, which is exactly `(traverseJsxList children s).2`.
-/

set_option linter.unusedVariables false

/-- Modelled from the spec: one local style declaration record, "each a
property/value pair" (the `TemplateStyleDecl` type itself lives in
`css.ts`, which is not among the sampled sources). -/
structure TemplateStyleDecl where
  property : String
  value : String
deriving DecidableEq

/-- Payload of an `ActionValue`: the class constructor builds
`{ type: "execute", args, code }`. -/
structure ActionPayload where
  typ : String
  args : List String
  code : String
deriving DecidableEq

/-- Payload of a `PageValue`: either a bare page id or a
`{ pageId, instanceId }` pair (the constructor picks the pair form
exactly when an instance id is supplied). -/
inductive PageVal where
  | page (pageId : String)
  | pageInstance (pageId : String) (instanceId : String)
deriving DecidableEq

/-- An abstract structured runtime value: anything that is not one of the
wrapper classes and not a plain string/number/boolean falls into the
`json` fallback of the dispatcher and is carried around unchanged. -/
inductive JsonValue where
  | null
  | bool (b : Bool)
  | num (n : Int)
  | str (s : String)
  | arr (elems : List JsonValue)
  | obj (fields : List (String × JsonValue))

/-- One attribute value, as discriminated by the dispatcher in
`renderTemplate` (lines 171-207 of `jsx.ts`).  The `instanceof` and
`typeof` checks of the source are mutually exclusive at runtime, so the
precedence chain of the source is faithfully a disjoint sum.  JS numbers
are modelled as integers (no claim exercises non-integral arithmetic). -/
inductive AttrValue where
  | expression (value : String)
  | parameter (value : String)
  | resource (value : String)
  | action (args : List String) (code : String)
  | asset (value : String)
  | page (value : PageVal)
  | str (value : String)
  | num (value : Int)
  | bool (value : Bool)
  | json (value : JsonValue)
  | styles (value : List TemplateStyleDecl)

/-- The `type` of a JSX element: the React `Fragment` marker or a
component carrying a `displayName`. -/
inductive ElemType where
  | fragment
  | component (displayName : String)
deriving DecidableEq

mutual
/-- A JSX child / element.  `key` models the object identity of an
element (reference equality, used as the key of the `ids` map).
`attrs` is the insertion-ordered list of the element's properties other
than `children` (which is the structural `children` forest). -/
inductive JsxNode where
  | text (s : String)
  | placeholder (s : String)
  | expression (s : String)
  | element (typ : ElemType) (key : Nat) (attrs : List (String × AttrValue))
      (children : JsxForest)

/-- A children array of JSX nodes. -/
inductive JsxForest where
  | nil
  | cons (head : JsxNode) (tail : JsxForest)
end

/-- `Instance["children"][number]`: a text child (with optional
`placeholder : true` marker), an expression child, or an id reference. -/
inductive Child where
  | text (value : String) (placeholder : Bool)
  | expression (value : String)
  | id (value : String)
deriving DecidableEq

/-- A flattened `Instance` record.  The constant `type: "instance"`
field is omitted; a missing `label` field is `none`. -/
structure Instance where
  id : String
  component : String
  label : Option String
  children : List Child
deriving DecidableEq

/-- The discriminated value of a `Prop` record.  For an `ActionValue`
the source pushes `value: [value.value]`, i.e. a singleton list holding
the action descriptor. -/
inductive PropValue where
  | expression (value : String)
  | parameter (value : String)
  | resource (value : String)
  | action (value : List ActionPayload)
  | asset (value : String)
  | page (value : PageVal)
  | str (value : String)
  | num (value : Int)
  | bool (value : Bool)
  | json (value : JsonValue)

/-- The `type` discriminant string of a `PropValue`, as it appears in
the emitted record. -/
def PropValue.kind : PropValue → String
  | .expression _ => "expression"
  | .parameter _ => "parameter"
  | .resource _ => "resource"
  | .action _ => "action"
  | .asset _ => "asset"
  | .page _ => "page"
  | .str _ => "string"
  | .num _ => "number"
  | .bool _ => "boolean"
  | .json _ => "json"

/-- A `Prop` record (`Prop` itself is reserved in Lean). -/
structure Prop' where
  id : String
  instanceId : String
  name : String
  value : PropValue

structure Breakpoint where
  id : String
  label : String
deriving DecidableEq

/-- A `StyleSource` record; `typ` models the `type` field (always
`"local"` at the creation site). -/
structure StyleSource where
  typ : String
  id : String
deriving DecidableEq

structure StyleSourceSelection where
  instanceId : String
  values : List String
deriving DecidableEq

/-- A `StyleDecl` record: `{ breakpointId, styleSourceId, ...styleDecl }`. -/
structure StyleDecl where
  breakpointId : String
  styleSourceId : String
  property : String
  value : String
deriving DecidableEq

/-- The mutable state of one `renderTemplate` invocation: the id
counter, the identity map, and the accumulated flat collections. -/
structure RenderState where
  lastId : Int
  ids : List (Nat × String)
  instances : List Instance
  props : List Prop'
  breakpoints : List Breakpoint
  styleSources : List StyleSource
  styleSourceSelections : List StyleSourceSelection
  styles : List StyleDecl

/-- The fresh state built at the top of `renderTemplate`
(`let lastId = -1; const instances = []; ...`). -/
def initialState : RenderState :=
  { lastId := -1, ids := [], instances := [], props := [], breakpoints := []
    styleSources := [], styleSourceSelections := [], styles := [] }

/-- `getId` (lines 122-130): look the identity key up in the `ids` map;
on a miss, increment `lastId`, render it as a decimal string, and record
the new entry. -/
def getId (key : Nat) (s : RenderState) : String × RenderState :=
  match s.ids.lookup key with
  | some id => (id, s)
  | none =>
    let lastId := s.lastId + 1
    let id := toString lastId
    (id, { s with lastId := lastId, ids := s.ids ++ [(key, id)] })

/-- `getBreakpointId` (lines 132-142): reuse the first breakpoint if one
exists, otherwise lazily create the default `{ id := "base", label := "" }`. -/
def getBreakpointId (s : RenderState) : String × RenderState :=
  match s.breakpoints with
  | b :: _ => (b.id, s)
  | [] =>
    ("base", { s with breakpoints := s.breakpoints ++ [{ id := "base", label := "" }] })

/-- Property access `element.props?.[name]` for the reserved attributes
(`ws:id`, `ws:label`), which the TS surface types as `string`. -/
def lookupString (attrs : List (String × AttrValue)) (name : String) : Option String :=
  match attrs.lookup name with
  | some (.str s) => some s
  | _ => none

/-- `element.props?.["ws:id"] ?? getId(element)`: an explicit identifier
is used verbatim (and nothing is recorded); otherwise the allocator is
consulted. -/
def resolveId (attrs : List (String × AttrValue)) (key : Nat) (s : RenderState) :
    String × RenderState :=
  match lookupString attrs "ws:id" with
  | some id => (id, s)
  | none => getId key s

/-- The cast `value as TemplateStyleDecl[]` on the value of a `ws:style`
entry (the TS surface types that attribute as a declaration list). -/
def styleDeclsOf : AttrValue → List TemplateStyleDecl
  | .styles l => l
  | _ => []

/-- The dispatcher of lines 171-207: the precedence chain of
`instanceof` / `typeof` checks, ending in the `json` fallback. -/
def propValueOf : AttrValue → PropValue
  | .expression v => .expression v
  | .parameter v => .parameter v
  | .resource v => .resource v
  | .action args code => .action [{ typ := "execute", args := args, code := code }]
  | .asset v => .asset v
  | .page v => .page v
  | .str v => .str v
  | .num v => .num v
  | .bool v => .bool v
  | .json v => .json v
  | .styles l =>
      .json (.arr (l.map fun d => .obj [("property", .str d.property), ("value", .str d.value)]))

/-- The loop over the style declarations of one `ws:style` entry
(lines 160-166): each declaration is pushed with the lazily resolved
breakpoint and the owning style source. -/
def pushStyles (styleSourceId : String) (decls : List TemplateStyleDecl)
    (s : RenderState) : RenderState :=
  match decls with
  | [] => s
  | d :: rest =>
    pushStyles styleSourceId rest
      { (getBreakpointId s).2 with styles := ((getBreakpointId s).2).styles ++
          [{ breakpointId := (getBreakpointId s).1, styleSourceId := styleSourceId
             property := d.property, value := d.value }] }

/-- The `Prop` record built for one non-reserved attribute entry
(lines 169-170 plus the dispatched value): its id is
`${instanceId}:${name}`. -/
def propOf (instanceId name : String) (value : AttrValue) : Prop' :=
  { id := instanceId ++ ":" ++ name, instanceId := instanceId, name := name
    value := propValueOf value }

/-- The `for (const [name, value] of Object.entries({...element.props}))`
loop (lines 145-208): reserved names are skipped, `ws:style` produces a
style source, a selection and the style declarations, and every other
entry produces exactly one `Prop`. -/
def processAttrs (instanceId : String) (entries : List (String × AttrValue))
    (s : RenderState) : RenderState :=
  match entries with
  | [] => s
  | (name, value) :: rest =>
    if name = "ws:id" ∨ name = "ws:label" ∨ name = "children" then
      processAttrs instanceId rest s
    else if name = "ws:style" then
      let styleSourceId := instanceId ++ ":" ++ name
      let s := { s with
        styleSources := s.styleSources ++ [{ typ := "local", id := styleSourceId }]
        styleSourceSelections := s.styleSourceSelections ++
          [{ instanceId := instanceId, values := [styleSourceId] }] }
      let s := pushStyles styleSourceId (styleDeclsOf value) s
      processAttrs instanceId rest s
    else
      processAttrs instanceId rest { s with props := s.props ++ [propOf instanceId name value] }

/-- The body of the `children.map(...)` of lines 217-225: the reference
for one child.  An element child is referenced by its explicit `ws:id`
or by `getId(child)` (this allocates, so the identity map can be
extended here before the child itself is visited). -/
def childRef (c : JsxNode) (s : RenderState) : Child × RenderState :=
  match c with
  | .text t => (Child.text t false, s)
  | .placeholder t => (Child.text t true, s)
  | .expression e => (Child.expression e, s)
  | .element _ k attrs _ =>
    match lookupString attrs "ws:id" with
    | some i => (Child.id i, s)
    | none => (Child.id (getId k s).1, (getId k s).2)

/-- The `children.map(...)` loop itself, threading the state left to
right. -/
def mapChildren : JsxForest → RenderState → List Child × RenderState
  | .nil, s => ([], s)
  | .cons c rest, s =>
    ((childRef c s).1 :: (mapChildren rest (childRef c s).2).1,
      (mapChildren rest (childRef c s).2).2)

/-- The inlined callback of `renderTemplate` (lines 143-228): resolve
the instance id, process the attribute entries, build the child
reference list, assemble and push the `Instance`, and return the
`{ type: "id", value }` reference handed to the caller.  A `ws:label`
entry yields a `label` field only when its value is truthy (a non-empty
string). -/
def processElement (displayName : String) (key : Nat)
    (attrs : List (String × AttrValue)) (children : JsxForest)
    (s : RenderState) : Child × RenderState :=
  let instanceId := (resolveId attrs key s).1
  let s₁ := processAttrs instanceId attrs (resolveId attrs key s).2
  let s₂ := (mapChildren children s₁).2
  let label : Option String :=
    match lookupString attrs "ws:label" with
    | some l => if l = "" then none else some l
    | none => none
  let inst : Instance :=
    { id := instanceId, component := displayName, label := label
      children := (mapChildren children s₁).1 }
  (Child.id instanceId, { s₂ with instances := s₂.instances ++ [inst] })

mutual
/-- `traverseJsx` (lines 68-111) specialised to the callback of
`renderTemplate`.  A fragment contributes the spliced traversals of its
children; a concrete element runs the callback, then re-traverses its
structural children for their side effects, discarding the returned
references, and contributes exactly its own reference.  Plain text,
placeholder and expression children are skipped by both loops, which is
the same as contributing nothing and leaving the state unchanged. -/
def traverseJsx (node : JsxNode) (s : RenderState) : List Child × RenderState :=
  match node with
  | .text _ => ([], s)
  | .placeholder _ => ([], s)
  | .expression _ => ([], s)
  | .element .fragment _ _ children => traverseJsxList children s
  | .element (.component displayName) key attrs children =>
    ([(processElement displayName key attrs children s).1],
      (traverseJsxList children (processElement displayName key attrs children s).2).2)

/-- The loops of `traverseJsx` over a children array: concatenate the
contributions of the members in order. -/
def traverseJsxList (children : JsxForest) (s : RenderState) : List Child × RenderState :=
  match children with
  | .nil => ([], s)
  | .cons c rest =>
    ((traverseJsx c s).1 ++ (traverseJsxList rest (traverseJsx c s).2).1,
      (traverseJsxList rest (traverseJsx c s).2).2)
end

/-- The aggregate `WebstudioFragment` result.  The collections this core
never populates (`assets`, `dataSources`, `resources`) are modelled as
string lists that stay empty. -/
structure WebstudioFragment where
  children : List Child
  instances : List Instance
  props : List Prop'
  breakpoints : List Breakpoint
  styleSources : List StyleSource
  styleSourceSelections : List StyleSourceSelection
  styles : List StyleDecl
  assets : List String
  dataSources : List String
  resources : List String

/-- `renderTemplate` (lines 113-242): run the traversal from a fresh
state and bundle the collections. -/
def renderTemplate (root : JsxNode) : WebstudioFragment :=
  { children := (traverseJsx root initialState).1
    instances := (traverseJsx root initialState).2.instances
    props := (traverseJsx root initialState).2.props
    breakpoints := (traverseJsx root initialState).2.breakpoints
    styleSources := (traverseJsx root initialState).2.styleSources
    styleSourceSelections := (traverseJsx root initialState).2.styleSourceSelections
    styles := (traverseJsx root initialState).2.styles
    assets := [], dataSources := [], resources := [] }

/-! ### Auxiliary definitions for the statements and proofs -/

/-- Numeric value of a decimal digit character. -/
def digitVal (c : Char) : Nat := c.toNat - 48

/-- The decimal digit list of a natural number (most significant digit
first); reference function used to reason about `Nat.repr`. -/
def myDigits (n : Nat) : List Char :=
  if n < 10 then [Nat.digitChar n]
  else myDigits (n / 10) ++ [Nat.digitChar (n % 10)]
termination_by n
decreasing_by exact Nat.div_lt_self (by omega) (by omega)

/-- Read a digit list back as a natural number. -/
def valOfDigits (l : List Char) : Nat := l.foldl (fun a c => 10 * a + digitVal c) 0

/-- The `{type:"id"}` values occurring in a child list. -/
def idRefs (cs : List Child) : List String :=
  cs.filterMap fun c =>
    match c with
    | .id v => some v
    | _ => none

/-- The ids of a list of instances, in order. -/
def instIds (l : List Instance) : List String := l.map fun i => i.id

/-- Referential integrity of one child reference: an id reference must
resolve to exactly one instance of the collection; text and expression
children resolve trivially. -/
def childResolves (instances : List Instance) : Child → Bool
  | .id v => (instances.filter fun i => i.id == v).length == 1
  | _ => true

/-- Referential integrity of a whole fragment: every id reference in the
top-level children list and in every instance's children list resolves
to exactly one instance of the output. -/
def fragmentIntegrity (f : WebstudioFragment) : Bool :=
  f.children.all (childResolves f.instances) &&
    f.instances.all fun i => i.children.all (childResolves f.instances)

/-- Is this node a fragment-marker element? -/
def isFragmentElem : JsxNode → Bool
  | .element .fragment _ _ _ => true
  | _ => false

/-- No member of this children array is a fragment-marker element. -/
def forestMembersNotFragment : JsxForest → Bool
  | .nil => true
  | .cons c rest => !isFragmentElem c && forestMembersNotFragment rest

/-- The identity keys of the element members of a children array (the
keys `getId` may be consulted for while mapping child references). -/
def forestElemKeys : JsxForest → List Nat
  | .nil => []
  | .cons (.element _ k _ _) rest => k :: forestElemKeys rest
  | .cons _ rest => forestElemKeys rest

mutual
/-- No element anywhere in this node carries an explicit `ws:id`
attribute entry. -/
def noWsIdNode : JsxNode → Bool
  | .text _ => true
  | .placeholder _ => true
  | .expression _ => true
  | .element _ _ attrs cs => (attrs.all fun p => p.1 != "ws:id") && noWsIdForest cs

def noWsIdForest : JsxForest → Bool
  | .nil => true
  | .cons c rest => noWsIdNode c && noWsIdForest rest
end

mutual
/-- No fragment-marker element occurs as a child of a concrete element
anywhere in this node. -/
def noFragChildNode : JsxNode → Bool
  | .element .fragment _ _ cs => noFragChildForest cs
  | .element (.component _) _ _ cs => forestMembersNotFragment cs && noFragChildForest cs
  | _ => true

def noFragChildForest : JsxForest → Bool
  | .nil => true
  | .cons c rest => noFragChildNode c && noFragChildForest rest
end

mutual
/-- The identity keys of the concrete (non-fragment) elements of a tree,
in depth-first pre-order with fragments erased: exactly the order in
which the traversal callback runs. -/
def ckeysNode : JsxNode → List Nat
  | .element .fragment _ _ cs => ckeysForest cs
  | .element (.component _) k _ cs => k :: ckeysForest cs
  | _ => []

def ckeysForest : JsxForest → List Nat
  | .nil => []
  | .cons c rest => ckeysNode c ++ ckeysForest rest
end

mutual
/-- Does some concrete element of this tree carry a `ws:style` entry
with at least one declaration?  (Attributes of fragment-marker elements
are never processed.) -/
def declaresStylesNode : JsxNode → Bool
  | .element .fragment _ _ cs => declaresStylesForest cs
  | .element (.component _) _ attrs cs =>
      (attrs.any fun p => p.1 == "ws:style" && !(styleDeclsOf p.2).isEmpty) ||
        declaresStylesForest cs
  | _ => false

def declaresStylesForest : JsxForest → Bool
  | .nil => false
  | .cons c rest => declaresStylesNode c || declaresStylesForest rest
end

mutual
/-- All explicit `ws:id` attribute values appearing on elements of the
tree. -/
def explicitIdsNode : JsxNode → List String
  | .element _ _ attrs cs =>
      (match lookupString attrs "ws:id" with
        | some i => [i]
        | none => []) ++ explicitIdsForest cs
  | _ => []

def explicitIdsForest : JsxForest → List String
  | .nil => []
  | .cons c rest => explicitIdsNode c ++ explicitIdsForest rest
end

mutual
/-- Size measure used for strong induction over the traversal. -/
def nodeSize : JsxNode → Nat
  | .element _ _ _ cs => forestSize cs + 1
  | _ => 1

def forestSize : JsxForest → Nat
  | .nil => 0
  | .cons c rest => nodeSize c + forestSize rest
end

/-- The single default breakpoint `{ id: "base", label: "" }`. -/
def baseBreakpoint : Breakpoint := { id := "base", label := "" }

/-- Breakpoint-list invariant: the traversal only ever creates the one
default breakpoint. -/
def BpOk (s : RenderState) : Prop :=
  s.breakpoints = [] ∨ s.breakpoints = [baseBreakpoint]

/-- Invariant of the identifier map: the counter never went below `-1`,
every recorded identifier is the decimal rendering of a counter value
not exceeding `lastId`, distinct keys hold distinct identifiers, and
keys are recorded at most once. -/
def IdsOk (s : RenderState) : Prop :=
  -1 ≤ s.lastId ∧
    (∀ p ∈ s.ids, ∃ n : Nat, (n : Int) ≤ s.lastId ∧ p.2 = toString ((n : Nat) : Int)) ∧
    (∀ p ∈ s.ids, ∀ q ∈ s.ids, p.2 = q.2 → p.1 = q.1) ∧
    (s.ids.map Prod.fst).Nodup

/-- Invariant of the instance collection relative to the identity keys
`visited` whose callback has already run: each visited key was visited
once, instance ids are pairwise distinct, and each instance id is the
identifier recorded for a visited key. -/
def InstOk (visited : List Nat) (s : RenderState) : Prop :=
  visited.Nodup ∧ (instIds s.instances).Nodup ∧
    ∀ inst ∈ s.instances, ∃ k ∈ visited, s.ids.lookup k = some inst.id

/-- `t` is reachable from `s` by the traversal: the counter is monotone
and every collection of `s` is an unchanged initial segment of the
corresponding collection of `t`. -/
structure Extends (s t : RenderState) : Prop where
  lastId : s.lastId ≤ t.lastId
  ids : ∃ l, t.ids = s.ids ++ l
  instances : ∃ l, t.instances = s.instances ++ l
  props : ∃ l, t.props = s.props ++ l
  breakpoints : ∃ l, t.breakpoints = s.breakpoints ++ l
  styleSources : ∃ l, t.styleSources = s.styleSources ++ l
  styleSourceSelections : ∃ l, t.styleSourceSelections = s.styleSourceSelections ++ l
  styles : ∃ l, t.styles = s.styles ++ l

/-- The reserved attribute names of the processing loop: they never
become `Prop` records. -/
def isReserved (name : String) : Bool :=
  name == "ws:id" || name == "ws:label" || name == "children" || name == "ws:style"

/-- Modelled from the spec (§4.3): the expected discriminant for each of
the nine recognized value shapes; "every value shape not covered above"
(abstract structured values, including a declaration list appearing under
a non-reserved name) is classified "json". -/
def attrShape : AttrValue → String
  | .expression _ => "expression"
  | .parameter _ => "parameter"
  | .resource _ => "resource"
  | .action _ _ => "action"
  | .asset _ => "asset"
  | .page _ => "page"
  | .str _ => "string"
  | .num _ => "number"
  | .bool _ => "boolean"
  | .json _ => "json"
  | .styles _ => "json"

/-- Counterexample input for referential integrity: a concrete `Box`
whose only child is a fragment marker wrapping another `Box`. -/
def exC1 : JsxNode :=
  .element (.component "Box") 0 []
    (.cons (.element .fragment 1 []
      (.cons (.element (.component "Box") 2 [] .nil) .nil)) .nil)

/-- Counterexample input for the identifier allocator: a fragment with
one child carrying the explicit id `"0"` and one child with no explicit
id (which is then synthesized as `"0"`). -/
def exC4 : JsxNode :=
  .element .fragment 0 []
    (.cons (.element (.component "Box") 1 [("ws:id", .str "0")] .nil)
      (.cons (.element (.component "Box") 2 [] .nil) .nil))

/-- Counterexample input for instance-id uniqueness: a concrete `Box`
with explicit id `"0"` whose child `Box` has no explicit id and gets the
synthesized id `"0"`. -/
def exC5 : JsxNode :=
  .element (.component "Box") 1 [("ws:id", .str "0")]
    (.cons (.element (.component "Box") 2 [] .nil) .nil)

/-- Well-formed witness input: a fragment root with one `Box` holding a
text child and a nested `Text` element. -/
def exW1 : JsxNode :=
  .element .fragment 0 []
    (.cons (.element (.component "Box") 1 []
      (.cons (.text "hi") (.cons (.element (.component "Text") 2 [] .nil) .nil))) .nil)

/-- Well-formed witness input: a fragment root with two sibling `Box`
elements and no explicit identifiers. -/
def exW5 : JsxNode :=
  .element .fragment 0 []
    (.cons (.element (.component "Box") 1 [] .nil)
      (.cons (.element (.component "Box") 2 [] .nil) .nil))

/-- The induction bundle for one node of the traversal: under the
no-explicit-identifier hypothesis and distinctness of the concrete keys,
the traversal preserves the allocator and instance invariants, only
appends to the state, and — when additionally no fragment marker is a
child of a concrete element — every id reference it emits or stores
resolves to an instance of the final collection, and every identifier
already recorded for a concrete key of the subtree ends up as the id of
some produced instance. -/
def MasterNode (n : JsxNode) : Prop :=
  ∀ (visited : List Nat) (s : RenderState),
    noWsIdNode n = true →
    (visited ++ ckeysNode n).Nodup →
    IdsOk s → InstOk visited s → BpOk s →
    IdsOk (traverseJsx n s).2 ∧
    InstOk (visited ++ ckeysNode n) (traverseJsx n s).2 ∧
    BpOk (traverseJsx n s).2 ∧
    Extends s (traverseJsx n s).2 ∧
    (noFragChildNode n = true →
      (∀ v ∈ idRefs (traverseJsx n s).1, v ∈ instIds (traverseJsx n s).2.instances) ∧
      (∀ inst ∈ (traverseJsx n s).2.instances, inst ∈ s.instances ∨
        ∀ v ∈ idRefs inst.children, v ∈ instIds (traverseJsx n s).2.instances) ∧
      (∀ k v, s.ids.lookup k = some v → k ∈ ckeysNode n →
        v ∈ instIds (traverseJsx n s).2.instances))

/-- The induction bundle for a children array of the traversal. -/
def MasterForest (cs : JsxForest) : Prop :=
  ∀ (visited : List Nat) (s : RenderState),
    noWsIdForest cs = true →
    (visited ++ ckeysForest cs).Nodup →
    IdsOk s → InstOk visited s → BpOk s →
    IdsOk (traverseJsxList cs s).2 ∧
    InstOk (visited ++ ckeysForest cs) (traverseJsxList cs s).2 ∧
    BpOk (traverseJsxList cs s).2 ∧
    Extends s (traverseJsxList cs s).2 ∧
    (noFragChildForest cs = true →
      (∀ v ∈ idRefs (traverseJsxList cs s).1,
        v ∈ instIds (traverseJsxList cs s).2.instances) ∧
      (∀ inst ∈ (traverseJsxList cs s).2.instances, inst ∈ s.instances ∨
        ∀ v ∈ idRefs inst.children, v ∈ instIds (traverseJsxList cs s).2.instances) ∧
      (∀ k v, s.ids.lookup k = some v → k ∈ ckeysForest cs →
        v ∈ instIds (traverseJsxList cs s).2.instances))

/-! ### Decimal rendering of the id counter is injective -/

theorem toDigitsCore_eq_myDigits :
    ∀ (fuel n : Nat) (ds : List Char), n ≤ fuel →
      Nat.toDigitsCore 10 (fuel + 1) n ds = myDigits n ++ ds := by
  intro fuel
  induction fuel with
  | zero =>
    intro n ds hn
    have hn0 : n = 0 := Nat.le_zero.mp hn
    subst hn0
    simp [Nat.toDigitsCore, myDigits]
  | succ fuel ih =>
    intro n ds hn
    by_cases h10 : n < 10
    · have hdiv : n / 10 = 0 := Nat.div_eq_of_lt h10
      have hmod : n % 10 = n := Nat.mod_eq_of_lt h10
      simp [Nat.toDigitsCore, hdiv, hmod, myDigits, h10]
    · have hdiv : n / 10 ≠ 0 := by
        have : 0 < n / 10 := Nat.div_pos (by omega) (by omega)
        omega
      have hle : n / 10 ≤ fuel := by
        have : n / 10 < n := Nat.div_lt_self (by omega) (by omega)
        omega
      have step :
          Nat.toDigitsCore 10 (fuel + 1 + 1) n ds =
            Nat.toDigitsCore 10 (fuel + 1) (n / 10) (Nat.digitChar (n % 10) :: ds) := by
        simp [Nat.toDigitsCore, hdiv]
      rw [step, ih (n / 10) _ hle]
      conv_rhs => rw [myDigits]
      simp [h10]

theorem natRepr_eq_myDigits (n : Nat) : Nat.repr n = (myDigits n).asString := by
  unfold Nat.repr Nat.toDigits
  rw [toDigitsCore_eq_myDigits n n [] (Nat.le_refl n)]
  simp

theorem digitVal_digitChar : ∀ m, m < 10 → digitVal (Nat.digitChar m) = m := by decide

theorem valOfDigits_append (l : List Char) (c : Char) :
    valOfDigits (l ++ [c]) = 10 * valOfDigits l + digitVal c := by
  simp [valOfDigits, List.foldl_append]

theorem valOfDigits_myDigits (n : Nat) : valOfDigits (myDigits n) = n := by
  rw [myDigits]
  split
  · rename_i h10
    simp [valOfDigits, List.foldl, digitVal_digitChar n h10]
  · rename_i h10
    rw [valOfDigits_append, valOfDigits_myDigits (n / 10),
      digitVal_digitChar _ (Nat.mod_lt _ (by omega))]
    omega
termination_by n
decreasing_by exact Nat.div_lt_self (by omega) (by omega)

theorem natRepr_inj {a b : Nat} (h : Nat.repr a = Nat.repr b) : a = b := by
  rw [natRepr_eq_myDigits, natRepr_eq_myDigits] at h
  have hd : myDigits a = myDigits b := by
    have := congrArg String.data h
    simpa [List.asString] using this
  calc a = valOfDigits (myDigits a) := (valOfDigits_myDigits a).symm
    _ = valOfDigits (myDigits b) := by rw [hd]
    _ = b := valOfDigits_myDigits b

theorem intToString_ofNat (m : Nat) : toString ((m : Nat) : Int) = Nat.repr m := rfl

theorem intToString_inj {a b : Int} (ha : 0 ≤ a) (hb : 0 ≤ b)
    (h : toString a = toString b) : a = b := by
  obtain ⟨m, rfl⟩ := Int.eq_ofNat_of_zero_le ha
  obtain ⟨n, rfl⟩ := Int.eq_ofNat_of_zero_le hb
  rw [intToString_ofNat, intToString_ofNat] at h
  exact congrArg Int.ofNat (natRepr_inj h)

/-! ### Association-list lookups -/

theorem lookup_append_left {α β : Type} [BEq α] {l₁ l₂ : List (α × β)} {k : α} {v : β}
    (h : l₁.lookup k = some v) : (l₁ ++ l₂).lookup k = some v := by
  induction l₁ with
  | nil => simp at h
  | cons p rest ih =>
    obtain ⟨a, b⟩ := p
    rw [List.lookup_cons] at h
    rw [List.cons_append, List.lookup_cons]
    cases hk : k == a with
    | true => simpa [hk] using h
    | false =>
      rw [hk] at h
      simpa using ih h

theorem lookup_append_none {α β : Type} [BEq α] {l₁ : List (α × β)} {k : α}
    (h : l₁.lookup k = none) (l₂ : List (α × β)) :
    (l₁ ++ l₂).lookup k = l₂.lookup k := by
  induction l₁ with
  | nil => simp
  | cons p rest ih =>
    obtain ⟨a, b⟩ := p
    rw [List.lookup_cons] at h
    rw [List.cons_append, List.lookup_cons]
    cases hk : k == a with
    | true => rw [hk] at h; simp at h
    | false =>
      rw [hk] at h
      simpa using ih h

theorem lookup_mem {α β : Type} [BEq α] [LawfulBEq α] {l : List (α × β)} {k : α} {v : β}
    (h : l.lookup k = some v) : (k, v) ∈ l := by
  induction l with
  | nil => simp at h
  | cons p rest ih =>
    obtain ⟨a, b⟩ := p
    rw [List.lookup_cons] at h
    cases hk : k == a with
    | true =>
      rw [hk] at h
      have hka : k = a := by simpa using hk
      cases h
      subst hka
      exact List.mem_cons_self _ _
    | false =>
      rw [hk] at h
      exact List.mem_cons_of_mem _ (ih h)

theorem lookup_of_mem_nodup {α β : Type} [BEq α] [LawfulBEq α] {l : List (α × β)} {k : α}
    {v : β} (hnd : (l.map Prod.fst).Nodup) (h : (k, v) ∈ l) : l.lookup k = some v := by
  induction l with
  | nil => simp at h
  | cons p rest ih =>
    obtain ⟨a, b⟩ := p
    rw [List.map_cons, List.nodup_cons] at hnd
    rcases List.mem_cons.mp h with heq | hmem
    · cases heq
      rw [List.lookup_cons]
      simp
    · have hka : k ≠ a := fun hk =>
        hnd.1 (List.mem_map.mpr ⟨(k, v), hmem, by rw [hk]⟩)
      rw [List.lookup_cons]
      have hb : (k == a) = false := by simpa using hka
      rw [hb]
      exact ih hnd.2 hmem

theorem lookup_none_iff {α β : Type} [BEq α] [LawfulBEq α] {l : List (α × β)} {k : α} :
    l.lookup k = none ↔ k ∉ l.map Prod.fst := by
  induction l with
  | nil => simp
  | cons p rest ih =>
    obtain ⟨a, b⟩ := p
    rw [List.lookup_cons]
    by_cases hka : k = a
    · subst hka
      simp
    · have : (k == a) = false := by simpa using hka
      rw [this]
      simp [ih, hka]

/-! ### The state-extension order -/

theorem listGrow_trans {α : Type} {x y z : List α} (h₁ : ∃ l, y = x ++ l)
    (h₂ : ∃ l, z = y ++ l) : ∃ l, z = x ++ l := by
  obtain ⟨l₁, rfl⟩ := h₁
  obtain ⟨l₂, rfl⟩ := h₂
  exact ⟨l₁ ++ l₂, by simp⟩

theorem extends_refl (s : RenderState) : Extends s s := by
  refine ⟨le_refl _, ⟨[], ?_⟩, ⟨[], ?_⟩, ⟨[], ?_⟩, ⟨[], ?_⟩, ⟨[], ?_⟩, ⟨[], ?_⟩, ⟨[], ?_⟩⟩ <;>
    simp

theorem extends_trans {a b c : RenderState} (h₁ : Extends a b) (h₂ : Extends b c) :
    Extends a c :=
  ⟨le_trans h₁.lastId h₂.lastId, listGrow_trans h₁.ids h₂.ids,
    listGrow_trans h₁.instances h₂.instances, listGrow_trans h₁.props h₂.props,
    listGrow_trans h₁.breakpoints h₂.breakpoints,
    listGrow_trans h₁.styleSources h₂.styleSources,
    listGrow_trans h₁.styleSourceSelections h₂.styleSourceSelections,
    listGrow_trans h₁.styles h₂.styles⟩

theorem lookup_extends {s t : RenderState} (h : Extends s t) {k : Nat} {v : String}
    (hl : s.ids.lookup k = some v) : t.ids.lookup k = some v := by
  obtain ⟨l, hids⟩ := h.ids
  rw [hids]
  exact lookup_append_left hl

/-! ### The identifier allocator -/

theorem getId_untouched (k : Nat) (s : RenderState) :
    ((getId k s).2).instances = s.instances ∧ ((getId k s).2).props = s.props ∧
      ((getId k s).2).breakpoints = s.breakpoints ∧
      ((getId k s).2).styleSources = s.styleSources ∧
      ((getId k s).2).styleSourceSelections = s.styleSourceSelections ∧
      ((getId k s).2).styles = s.styles := by
  unfold getId
  split <;> exact ⟨rfl, rfl, rfl, rfl, rfl, rfl⟩

theorem getId_extends (k : Nat) (s : RenderState) : Extends s (getId k s).2 := by
  unfold getId
  cases hl : s.ids.lookup k with
  | some v => exact extends_refl s
  | none =>
    constructor
    · show s.lastId ≤ s.lastId + 1
      omega
    · exact ⟨[(k, toString (s.lastId + 1))], rfl⟩
    all_goals exact ⟨[], by simp⟩

theorem getId_idsOk {s : RenderState} (h : IdsOk s) (k : Nat) :
    IdsOk (getId k s).2 ∧ ((getId k s).2).ids.lookup k = some (getId k s).1 := by
  obtain ⟨hlast, hrange, hinj, hnd⟩ := h
  unfold getId
  cases hl : s.ids.lookup k with
  | some v =>
    dsimp only [IdsOk]
    exact ⟨⟨hlast, hrange, hinj, hnd⟩, hl⟩
  | none =>
    dsimp only [IdsOk]
    have hnn : (0 : Int) ≤ s.lastId + 1 := by omega
    have hcast : ((s.lastId + 1).toNat : Int) = s.lastId + 1 := Int.toNat_of_nonneg hnn
    have hknot : k ∉ s.ids.map Prod.fst := lookup_none_iff.mp hl
    refine ⟨⟨by omega, ?_, ?_, ?_⟩, ?_⟩
    · intro p hp
      rcases List.mem_append.mp hp with hp | hp
      · obtain ⟨n, hn, hv⟩ := hrange p hp
        exact ⟨n, by omega, hv⟩
      · rcases List.mem_singleton.mp hp with rfl
        exact ⟨(s.lastId + 1).toNat, by omega, by rw [hcast]⟩
    · intro p hp q hq hpq
      rcases List.mem_append.mp hp with hp | hp <;>
        rcases List.mem_append.mp hq with hq | hq
      · exact hinj p hp q hq hpq
      · exfalso
        obtain ⟨n, hn, hv⟩ := hrange p hp
        rcases List.mem_singleton.mp hq with rfl
        rw [hv] at hpq
        have := intToString_inj (Int.ofNat_nonneg n) hnn hpq
        omega
      · exfalso
        obtain ⟨n, hn, hv⟩ := hrange q hq
        rcases List.mem_singleton.mp hp with rfl
        rw [hv] at hpq
        have := intToString_inj hnn (Int.ofNat_nonneg n) hpq
        omega
      · rcases List.mem_singleton.mp hp with rfl
        rcases List.mem_singleton.mp hq with rfl
        rfl
    · rw [List.map_append]
      refine List.Nodup.append hnd (by simp) ?_
      intro a ha hb
      simp at hb
      subst hb
      exact hknot ha
    · rw [lookup_append_none hl]
      rw [List.lookup_cons]
      simp

/-! ### The lazy breakpoint -/

theorem getBreakpointId_spec {s : RenderState} (h : BpOk s) :
    (getBreakpointId s).1 = "base" ∧
      (getBreakpointId s).2.breakpoints = [baseBreakpoint] ∧
      ((getBreakpointId s).2).lastId = s.lastId ∧ ((getBreakpointId s).2).ids = s.ids ∧
      ((getBreakpointId s).2).instances = s.instances ∧
      ((getBreakpointId s).2).props = s.props ∧
      ((getBreakpointId s).2).styleSources = s.styleSources ∧
      ((getBreakpointId s).2).styleSourceSelections = s.styleSourceSelections ∧
      ((getBreakpointId s).2).styles = s.styles := by
  rcases h with h | h
  · unfold getBreakpointId
    rw [h]
    exact ⟨rfl, rfl, rfl, rfl, rfl, rfl, rfl, rfl, rfl⟩
  · unfold getBreakpointId
    rw [h]
    exact ⟨rfl, h, rfl, rfl, rfl, rfl, rfl, rfl, rfl⟩

theorem pushStyles_spec :
    ∀ (decls : List TemplateStyleDecl) (ssid : String) {s : RenderState}, BpOk s →
      (pushStyles ssid decls s).styles = s.styles ++ (decls.map fun d =>
        { breakpointId := "base", styleSourceId := ssid
          property := d.property, value := d.value }) ∧
      (pushStyles ssid decls s).breakpoints =
        (if decls.isEmpty then s.breakpoints else [baseBreakpoint]) ∧
      BpOk (pushStyles ssid decls s) ∧
      ((pushStyles ssid decls s)).lastId = s.lastId ∧
      ((pushStyles ssid decls s)).ids = s.ids ∧
      ((pushStyles ssid decls s)).instances = s.instances ∧
      ((pushStyles ssid decls s)).props = s.props ∧
      ((pushStyles ssid decls s)).styleSources = s.styleSources ∧
      ((pushStyles ssid decls s)).styleSourceSelections = s.styleSourceSelections := by
  intro decls
  induction decls with
  | nil =>
    intro ssid s h
    exact ⟨by simp [pushStyles], by simp [pushStyles], h, rfl, rfl, rfl, rfl, rfl, rfl⟩
  | cons d rest ih =>
    intro ssid s h
    obtain ⟨hid, hbp, hlast, hids, hinst, hprops, hsrc, hsel, hsty⟩ := getBreakpointId_spec h
    unfold pushStyles
    rcases hgb : getBreakpointId s with ⟨bpId, s₁⟩
    rw [hgb] at hid hbp hlast hids hinst hprops hsrc hsel hsty
    dsimp only at hid hbp hlast hids hinst hprops hsrc hsel hsty ⊢
    subst hid
    set s₂ : RenderState := { s₁ with styles := s₁.styles ++
      [{ breakpointId := "base", styleSourceId := ssid
         property := d.property, value := d.value }] } with hs₂
    have hbp₂ : BpOk s₂ := Or.inr hbp
    obtain ⟨ih₁, ih₂, ih₃, ih₄, ih₅, ih₆, ih₇, ih₈, ih₉⟩ := ih ssid hbp₂
    refine ⟨?_, ?_, ih₃, ?_, ?_, ?_, ?_, ?_, ?_⟩
    · rw [ih₁]
      show s₁.styles ++ _ ++ _ = s.styles ++ _
      rw [hsty]
      simp
    · rw [ih₂]
      have hb₂ : s₂.breakpoints = [baseBreakpoint] := hbp
      rw [hb₂]
      simp
    · rw [ih₄]
      exact hlast
    · rw [ih₅]
      exact hids
    · rw [ih₆]
      exact hinst
    · rw [ih₇]
      exact hprops
    · rw [ih₈]
      exact hsrc
    · rw [ih₉]
      exact hsel

/-! ### The attribute-processing loop -/

theorem lookup_none_of_all_ne {β : Type} {attrs : List (String × β)} {n : String}
    (h : (attrs.all fun p => p.1 != n) = true) : attrs.lookup n = none := by
  induction attrs with
  | nil => simp
  | cons p rest ih =>
    obtain ⟨a, b⟩ := p
    rw [List.all_cons] at h
    rw [Bool.and_eq_true] at h
    have hne : a ≠ n := by simpa using h.1
    rw [List.lookup_cons]
    have hb : (n == a) = false := by simp [Ne.symm hne]
    rw [hb]
    exact ih h.2

theorem lookupString_none_of_all_ne {attrs : List (String × AttrValue)}
    (h : (attrs.all fun p => p.1 != "ws:id") = true) :
    lookupString attrs "ws:id" = none := by
  unfold lookupString
  rw [lookup_none_of_all_ne h]

theorem isReserved_trio {name : String}
    (h : name = "ws:id" ∨ name = "ws:label" ∨ name = "children") :
    isReserved name = true := by
  rcases h with rfl | rfl | rfl <;> decide

theorem isReserved_style : isReserved "ws:style" = true := by decide

theorem isReserved_false {name : String}
    (h1 : ¬(name = "ws:id" ∨ name = "ws:label" ∨ name = "children"))
    (h2 : ¬name = "ws:style") : isReserved name = false := by
  push_neg at h1
  simp only [isReserved, Bool.or_eq_false_iff, beq_eq_false_iff_ne, ne_eq]
  exact ⟨⟨⟨h1.1, h1.2.1⟩, h1.2.2⟩, h2⟩

theorem processAttrs_spec :
    ∀ (entries : List (String × AttrValue)) (instanceId : String) {s : RenderState},
      BpOk s →
      (processAttrs instanceId entries s).props = s.props ++
        ((entries.filter fun p => !isReserved p.1).map fun p => propOf instanceId p.1 p.2) ∧
      BpOk (processAttrs instanceId entries s) ∧
      (processAttrs instanceId entries s).lastId = s.lastId ∧
      (processAttrs instanceId entries s).ids = s.ids ∧
      (processAttrs instanceId entries s).instances = s.instances ∧
      (∃ l, (processAttrs instanceId entries s).breakpoints = s.breakpoints ++ l) ∧
      (∃ l, (processAttrs instanceId entries s).styleSources = s.styleSources ++ l) ∧
      (∃ l, (processAttrs instanceId entries s).styleSourceSelections =
        s.styleSourceSelections ++ l) ∧
      (∃ l, (processAttrs instanceId entries s).styles = s.styles ++ l) := by
  intro entries
  induction entries with
  | nil =>
    intro instanceId s h
    refine ⟨by simp [processAttrs], h, rfl, rfl, rfl, ⟨[], by simp [processAttrs]⟩,
      ⟨[], by simp [processAttrs]⟩, ⟨[], by simp [processAttrs]⟩, ⟨[], by simp [processAttrs]⟩⟩
  | cons e rest ih =>
    obtain ⟨name, value⟩ := e
    intro instanceId s h
    unfold processAttrs
    by_cases h₁ : name = "ws:id" ∨ name = "ws:label" ∨ name = "children"
    · rw [if_pos h₁]
      obtain ⟨ih₁, ih₂, ih₃, ih₄, ih₅, ih₆, ih₇, ih₈, ih₉⟩ := ih instanceId h
      refine ⟨?_, ih₂, ih₃, ih₄, ih₅, ih₆, ih₇, ih₈, ih₉⟩
      rw [ih₁, List.filter_cons]
      rw [isReserved_trio h₁]
      simp
    · rw [if_neg h₁]
      by_cases h₂ : name = "ws:style"
      · rw [if_pos h₂]
        subst h₂
        set src : StyleSource :=
          { typ := "local", id := instanceId ++ ":" ++ "ws:style" } with hsrc
        set sel : StyleSourceSelection :=
          { instanceId := instanceId
            values := [instanceId ++ ":" ++ "ws:style"] } with hsel
        set s₁ : RenderState := { s with
          styleSources := s.styleSources ++ [src]
          styleSourceSelections := s.styleSourceSelections ++ [sel] } with hs₁
        have hbp₁ : BpOk s₁ := h
        obtain ⟨p₁, p₂, p₃, p₄, p₅, p₆, p₇, p₈, p₉⟩ :=
          pushStyles_spec (styleDeclsOf value) (instanceId ++ ":" ++ "ws:style") hbp₁
        set s₂ := pushStyles (instanceId ++ ":" ++ "ws:style") (styleDeclsOf value) s₁
        obtain ⟨ih₁, ih₂, ih₃, ih₄, ih₅, ih₆, ih₇, ih₈, ih₉⟩ := ih instanceId p₃
        refine ⟨?_, ih₂, ?_, ?_, ?_, ?_, ?_, ?_, ?_⟩
        · rw [ih₁, p₇, List.filter_cons]
          rw [isReserved_style]
          simp
        · rw [ih₃, p₄]
        · rw [ih₄, p₅]
        · rw [ih₅, p₆]
        · refine listGrow_trans ?_ ih₆
          rcases h with hb | hb <;> rw [p₂, hb] <;> simp
        · refine listGrow_trans ?_ ih₇
          rw [p₈]
          exact ⟨[src], rfl⟩
        · refine listGrow_trans ?_ ih₈
          rw [p₉]
          exact ⟨[sel], rfl⟩
        · refine listGrow_trans ?_ ih₉
          rw [p₁]
          exact ⟨_, rfl⟩
      · rw [if_neg h₂]
        set s₁ : RenderState :=
          { s with props := s.props ++ [propOf instanceId name value] } with hs₁
        have hbp₁ : BpOk s₁ := h
        obtain ⟨ih₁, ih₂, ih₃, ih₄, ih₅, ih₆, ih₇, ih₈, ih₉⟩ := ih instanceId hbp₁
        refine ⟨?_, ih₂, ih₃, ih₄, ih₅, ih₆, ih₇, ih₈, ih₉⟩
        rw [ih₁, List.filter_cons]
        rw [isReserved_false h₁ h₂]
        show s.props ++ [propOf instanceId name value] ++ _ = _
        simp

/-! ### The child-reference mapping -/

theorem mapChildren_spec (cs : JsxForest) :
    ∀ (s : RenderState), IdsOk s →
      IdsOk (mapChildren cs s).2 ∧
      s.lastId ≤ ((mapChildren cs s).2).lastId ∧
      (∃ l, ((mapChildren cs s).2).ids = s.ids ++ l) ∧
      ((mapChildren cs s).2).instances = s.instances ∧
      ((mapChildren cs s).2).props = s.props ∧
      ((mapChildren cs s).2).breakpoints = s.breakpoints ∧
      ((mapChildren cs s).2).styleSources = s.styleSources ∧
      ((mapChildren cs s).2).styleSourceSelections = s.styleSourceSelections ∧
      ((mapChildren cs s).2).styles = s.styles ∧
      (noWsIdForest cs = true →
        ∀ v ∈ idRefs (mapChildren cs s).1,
          ∃ k, k ∈ forestElemKeys cs ∧ ((mapChildren cs s).2).ids.lookup k = some v) := by
  match cs with
  | .nil =>
    intro s h
    refine ⟨h, le_refl _, ⟨[], by simp [mapChildren]⟩, rfl, rfl, rfl, rfl, rfl, rfl, ?_⟩
    intro _ v hv
    simp [mapChildren, idRefs] at hv
  | .cons c rest =>
    intro s h
    have ihrest := mapChildren_spec rest
    have hforest : noWsIdForest (JsxForest.cons c rest) = true →
        noWsIdNode c = true ∧ noWsIdForest rest = true := by
      intro hws
      rw [noWsIdForest] at hws
      simpa using hws
    match c with
    | .text t =>
      have hcr : childRef (JsxNode.text t) s = (Child.text t false, s) := rfl
      simp only [mapChildren, hcr]
      obtain ⟨i₁, i₂, i₃, i₄, i₅, i₆, i₇, i₈, i₉, i₁₀⟩ := ihrest s h
      refine ⟨i₁, i₂, i₃, i₄, i₅, i₆, i₇, i₈, i₉, ?_⟩
      intro hws v hv
      have hv2 : v ∈ idRefs (mapChildren rest s).1 := by
        simpa [idRefs] using hv
      obtain ⟨k, hk, hl⟩ := i₁₀ (hforest hws).2 v hv2
      exact ⟨k, by simpa [forestElemKeys] using hk, hl⟩
    | .placeholder t =>
      have hcr : childRef (JsxNode.placeholder t) s = (Child.text t true, s) := rfl
      simp only [mapChildren, hcr]
      obtain ⟨i₁, i₂, i₃, i₄, i₅, i₆, i₇, i₈, i₉, i₁₀⟩ := ihrest s h
      refine ⟨i₁, i₂, i₃, i₄, i₅, i₆, i₇, i₈, i₉, ?_⟩
      intro hws v hv
      have hv2 : v ∈ idRefs (mapChildren rest s).1 := by
        simpa [idRefs] using hv
      obtain ⟨k, hk, hl⟩ := i₁₀ (hforest hws).2 v hv2
      exact ⟨k, by simpa [forestElemKeys] using hk, hl⟩
    | .expression t =>
      have hcr : childRef (JsxNode.expression t) s = (Child.expression t, s) := rfl
      simp only [mapChildren, hcr]
      obtain ⟨i₁, i₂, i₃, i₄, i₅, i₆, i₇, i₈, i₉, i₁₀⟩ := ihrest s h
      refine ⟨i₁, i₂, i₃, i₄, i₅, i₆, i₇, i₈, i₉, ?_⟩
      intro hws v hv
      have hv2 : v ∈ idRefs (mapChildren rest s).1 := by
        simpa [idRefs] using hv
      obtain ⟨k, hk, hl⟩ := i₁₀ (hforest hws).2 v hv2
      exact ⟨k, by simpa [forestElemKeys] using hk, hl⟩
    | .element t k attrs gs =>
      cases hws0 : lookupString attrs "ws:id" with
      | some i =>
        have hcr : childRef (JsxNode.element t k attrs gs) s = (Child.id i, s) := by
          simp [childRef, hws0]
        simp only [mapChildren, hcr]
        obtain ⟨i₁, i₂, i₃, i₄, i₅, i₆, i₇, i₈, i₉, i₁₀⟩ := ihrest s h
        refine ⟨i₁, i₂, i₃, i₄, i₅, i₆, i₇, i₈, i₉, ?_⟩
        intro hws v hv
        exfalso
        have hnode := (hforest hws).1
        rw [noWsIdNode] at hnode
        rw [Bool.and_eq_true] at hnode
        rw [lookupString_none_of_all_ne hnode.1] at hws0
        exact Option.noConfusion hws0
      | none =>
        have hcr : childRef (JsxNode.element t k attrs gs) s =
            (Child.id (getId k s).1, (getId k s).2) := by
          simp [childRef, hws0]
        simp only [mapChildren, hcr]
        obtain ⟨g₁, g₂⟩ := getId_idsOk h k
        have gext := getId_extends k s
        obtain ⟨u₁, u₂, u₃, u₄, u₅, u₆⟩ := getId_untouched k s
        obtain ⟨i₁, i₂, i₃, i₄, i₅, i₆, i₇, i₈, i₉, i₁₀⟩ := ihrest (getId k s).2 g₁
        refine ⟨i₁, le_trans gext.lastId i₂, listGrow_trans gext.ids i₃,
          by rw [i₄, u₁], by rw [i₅, u₂], by rw [i₆, u₃], by rw [i₇, u₄],
          by rw [i₈, u₅], by rw [i₉, u₆], ?_⟩
        intro hws v hv
        have hv2 : v = (getId k s).1 ∨ v ∈ idRefs (mapChildren rest (getId k s).2).1 := by
          simpa [idRefs] using hv
        rcases hv2 with rfl | hv2
        · refine ⟨k, by simp [forestElemKeys], ?_⟩
          obtain ⟨l, hl⟩ := i₃
          rw [hl]
          exact lookup_append_left g₂
        · obtain ⟨k', hk', hl'⟩ := i₁₀ (hforest hws).2 v hv2
          exact ⟨k', by simp [forestElemKeys, hk'], hl'⟩

/-! ### Further preservation helpers -/

theorem instIds_append (l₁ l₂ : List Instance) :
    instIds (l₁ ++ l₂) = instIds l₁ ++ instIds l₂ := by
  simp [instIds]

theorem instIds_mono {l : List Instance} {t : List Instance} {v : String}
    (h : v ∈ instIds l) : v ∈ instIds (l ++ t) := by
  rw [instIds_append]
  exact List.mem_append_left _ h

theorem idsOk_of_eq {s t : RenderState} (h : IdsOk s) (hids : t.ids = s.ids)
    (hlast : t.lastId = s.lastId) : IdsOk t := by
  obtain ⟨h₁, h₂, h₃, h₄⟩ := h
  exact ⟨by rw [hlast]; exact h₁, by rw [hids, hlast]; exact h₂, by rw [hids]; exact h₃,
    by rw [hids]; exact h₄⟩

theorem instOk_preserve {visited : List Nat} {s t : RenderState} (h : InstOk visited s)
    (hinst : t.instances = s.instances) (hids : ∃ l, t.ids = s.ids ++ l) :
    InstOk visited t := by
  obtain ⟨h₁, h₂, h₃⟩ := h
  refine ⟨h₁, by rw [hinst]; exact h₂, ?_⟩
  intro inst hml
  rw [hinst] at hml
  obtain ⟨k, hk, hl⟩ := h₃ inst hml
  obtain ⟨l, hl2⟩ := hids
  exact ⟨k, hk, by rw [hl2]; exact lookup_append_left hl⟩

theorem bpOk_of_eq {s t : RenderState} (h : BpOk s) (hb : t.breakpoints = s.breakpoints) :
    BpOk t := by
  rw [BpOk, hb]
  exact h

theorem instOk_push {visited : List Nat} {s : RenderState} {key : Nat} {inst : Instance}
    (h : InstOk visited s) (hids : IdsOk s) (hl : s.ids.lookup key = some inst.id)
    (hkey : key ∉ visited) :
    InstOk (visited ++ [key]) { s with instances := s.instances ++ [inst] } := by
  obtain ⟨h₁, h₂, h₃⟩ := h
  refine ⟨?_, ?_, ?_⟩
  · rw [List.nodup_append]
    refine ⟨h₁, List.nodup_singleton _, ?_⟩
    intro a ha hb
    rcases List.mem_singleton.mp hb with rfl
    exact hkey ha
  · show (instIds (s.instances ++ [inst])).Nodup
    rw [instIds_append]
    rw [List.nodup_append]
    refine ⟨h₂, by simp [instIds], ?_⟩
    intro v hv hv2
    have hvinst : v = inst.id := by simpa [instIds] using hv2
    subst hvinst
    obtain ⟨inst', hml, heq⟩ := by simpa [instIds] using hv
    obtain ⟨k', hk', hlk'⟩ := h₃ inst' hml
    rw [heq] at hlk'
    have hent := lookup_mem hl
    have hent' := lookup_mem hlk'
    have := hids.2.2.1 _ hent _ hent' rfl
    subst this
    exact hkey hk'
  · intro inst' hml
    show ∃ k ∈ visited ++ [key], s.ids.lookup k = some inst'.id
    rcases List.mem_append.mp hml with hml | hml
    · obtain ⟨k', hk', hlk'⟩ := h₃ inst' hml
      exact ⟨k', List.mem_append_left _ hk', hlk'⟩
    · rcases List.mem_singleton.mp hml with rfl
      exact ⟨key, List.mem_append_right _ (List.mem_singleton_self _), hl⟩

theorem getId_of_lookup_some {s : RenderState} {k : Nat} {v : String}
    (h : s.ids.lookup k = some v) : getId k s = (v, s) := by
  unfold getId
  rw [h]

theorem resolveId_of_none {attrs : List (String × AttrValue)} {key : Nat} {s : RenderState}
    (h : lookupString attrs "ws:id" = none) : resolveId attrs key s = getId key s := by
  unfold resolveId
  rw [h]

theorem resolveId_of_some {attrs : List (String × AttrValue)} {key : Nat} {s : RenderState}
    {i : String} (h : lookupString attrs "ws:id" = some i) :
    resolveId attrs key s = (i, s) := by
  unfold resolveId
  rw [h]

theorem elemKeys_subset_ckeys (cs : JsxForest)
    (h : forestMembersNotFragment cs = true) :
    ∀ k ∈ forestElemKeys cs, k ∈ ckeysForest cs := by
  match cs with
  | .nil => intro k hk; simp [forestElemKeys] at hk
  | .cons c rest =>
    rw [forestMembersNotFragment] at h
    rw [Bool.and_eq_true] at h
    have ih := elemKeys_subset_ckeys rest h.2
    intro k hk
    match c with
    | .text t => exact List.mem_append_right _ (ih k (by simpa [forestElemKeys] using hk))
    | .placeholder t =>
      exact List.mem_append_right _ (ih k (by simpa [forestElemKeys] using hk))
    | .expression t =>
      exact List.mem_append_right _ (ih k (by simpa [forestElemKeys] using hk))
    | .element t k' attrs gs =>
      match t with
      | .fragment => simp [isFragmentElem] at h
      | .component dn =>
        rw [forestElemKeys] at hk
        rw [ckeysForest, ckeysNode]
        rcases List.mem_cons.mp hk with rfl | hk
        · exact List.mem_append_left _ (List.mem_cons_self _ _)
        · exact List.mem_append_right _ (ih k hk)

/-! ### The master induction over the traversal -/

theorem nodeSize_pos (n : JsxNode) : 1 ≤ nodeSize n := by
  match n with
  | .text t => exact le_refl _
  | .placeholder t => exact le_refl _
  | .expression t => exact le_refl _
  | .element ty k a cs =>
    show 1 ≤ forestSize cs + 1
    omega

theorem masterTrivial (n : JsxNode) (h₁ : ∀ s, traverseJsx n s = ([], s))
    (h₂ : ckeysNode n = []) : MasterNode n := by
  intro visited s hws hnd hids hinst hbp
  rw [h₁ s, h₂]
  refine ⟨hids, by rw [List.append_nil]; exact hinst, hbp, extends_refl s, ?_⟩
  intro _
  refine ⟨?_, ?_, ?_⟩
  · intro v hv
    simp [idRefs] at hv
  · intro inst hml
    exact Or.inl hml
  · intro k v _ hk
    simp at hk

theorem masterAll : ∀ N : Nat,
    (∀ n, nodeSize n ≤ N → MasterNode n) ∧ (∀ cs, forestSize cs ≤ N → MasterForest cs) := by
  intro N
  induction N using Nat.strong_induction_on with
  | _ N ih =>
  have hnode : ∀ n, nodeSize n ≤ N → MasterNode n := by
    intro n hn
    match n with
    | .text t => exact masterTrivial _ (fun s => rfl) rfl
    | .placeholder t => exact masterTrivial _ (fun s => rfl) rfl
    | .expression t => exact masterTrivial _ (fun s => rfl) rfl
    | .element ty key attrs cs =>
      have hszcs : forestSize cs < N := by
        simp only [nodeSize] at hn
        omega
      have hcs : MasterForest cs := (ih (forestSize cs) hszcs).2 cs (le_refl _)
      match ty with
      | .fragment =>
        intro visited s hws hnd hids hinst hbp
        have hte : traverseJsx (JsxNode.element ElemType.fragment key attrs cs) s =
            traverseJsxList cs s := rfl
        have hck : ckeysNode (JsxNode.element ElemType.fragment key attrs cs) =
            ckeysForest cs := rfl
        have hfr : noFragChildNode (JsxNode.element ElemType.fragment key attrs cs) =
            noFragChildForest cs := rfl
        rw [hte, hck, hfr]
        rw [noWsIdNode, Bool.and_eq_true] at hws
        exact hcs visited s hws.2 hnd hids hinst hbp
      | .component dn =>
        intro visited s hws hnd hids hinst hbp
        rw [noWsIdNode, Bool.and_eq_true] at hws
        have hws0 : lookupString attrs "ws:id" = none := lookupString_none_of_all_ne hws.1
        have hres : resolveId attrs key s = getId key s := resolveId_of_none hws0
        obtain ⟨g₁, g₂⟩ := getId_idsOk hids key
        have gext := getId_extends key s
        obtain ⟨u₁, u₂, u₃, u₄, u₅, u₆⟩ := getId_untouched key s
        have hbp₀ : BpOk (getId key s).2 := bpOk_of_eq hbp u₃
        have hinst₀ : InstOk visited (getId key s).2 := instOk_preserve hinst u₁ gext.ids
        obtain ⟨p₁, p₂, p₃, p₄, p₅, p₆, p₇, p₈, p₉⟩ :=
          processAttrs_spec attrs (getId key s).1 hbp₀
        have hids₁ : IdsOk (processAttrs (getId key s).1 attrs (getId key s).2) :=
          idsOk_of_eq g₁ p₄ p₃
        have hinst₁ : InstOk visited (processAttrs (getId key s).1 attrs (getId key s).2) :=
          instOk_preserve hinst₀ p₅ ⟨[], by rw [p₄]; simp⟩
        have hlk₁ : (processAttrs (getId key s).1 attrs (getId key s).2).ids.lookup key =
            some (getId key s).1 := by
          rw [p₄]
          exact g₂
        obtain ⟨m₁, m₂, m₃, m₄, m₅, m₆, m₇, m₈, m₉, m₁₀⟩ :=
          mapChildren_spec cs (processAttrs (getId key s).1 attrs (getId key s).2) hids₁
        set s₂ := (mapChildren cs (processAttrs (getId key s).1 attrs (getId key s).2)).2
          with hs₂def
        have hbp₂ : BpOk s₂ := bpOk_of_eq p₂ m₆
        have hinst₂ : InstOk visited s₂ := instOk_preserve hinst₁ m₄ m₃
        have hlk₂ : s₂.ids.lookup key = some (getId key s).1 := by
          obtain ⟨l, hl⟩ := m₃
          rw [hs₂def, hl]
          exact lookup_append_left hlk₁
        set inst : Instance :=
          { id := (getId key s).1, component := dn
            label := match lookupString attrs "ws:label" with
              | some l => if l = "" then none else some l
              | none => none
            children := (mapChildren cs (processAttrs (getId key s).1 attrs
              (getId key s).2)).1 } with hinstdef
        have hpe : processElement dn key attrs cs s =
            (Child.id (getId key s).1,
              { s₂ with instances := s₂.instances ++ [inst] }) := by
          unfold processElement
          rw [hres]
        set s₃ : RenderState := { s₂ with instances := s₂.instances ++ [inst] } with hs₃def
        have hck : ckeysNode (JsxNode.element (ElemType.component dn) key attrs cs) =
            key :: ckeysForest cs := rfl
        rw [hck] at hnd
        have hnd2 : ((visited ++ [key]) ++ ckeysForest cs).Nodup := by
          rw [List.append_assoc]
          simpa using hnd
        have hkey : key ∉ visited := by
          rw [List.nodup_append] at hnd
          intro hk
          exact hnd.2.2 hk (List.mem_cons_self _ _)
        have hinst₃ : InstOk (visited ++ [key]) s₃ :=
          instOk_push hinst₂ m₁ hlk₂ hkey
        have hids₃ : IdsOk s₃ := idsOk_of_eq m₁ rfl rfl
        have hbp₃ : BpOk s₃ := bpOk_of_eq hbp₂ rfl
        obtain ⟨f₁, f₂, f₃, f₄, f₅⟩ := hcs (visited ++ [key]) s₃ hws.2 hnd2 hids₃ hinst₃ hbp₃
        have hte : traverseJsx (JsxNode.element (ElemType.component dn) key attrs cs) s =
            ([Child.id (getId key s).1], (traverseJsxList cs s₃).2) := by
          show ([(processElement dn key attrs cs s).1],
            (traverseJsxList cs (processElement dn key attrs cs s).2).2) = _
          rw [hpe]
        rw [hte, hck]
        have e₁ : Extends (getId key s).2
            (processAttrs (getId key s).1 attrs (getId key s).2) :=
          ⟨le_of_eq p₃.symm, ⟨[], by rw [p₄]; simp⟩, ⟨[], by rw [p₅]; simp⟩, ⟨_, p₁⟩,
            p₆, p₇, p₈, p₉⟩
        have e₂ : Extends (processAttrs (getId key s).1 attrs (getId key s).2) s₂ :=
          ⟨m₂, m₃, ⟨[], by rw [m₄]; simp⟩, ⟨[], by rw [m₅]; simp⟩, ⟨[], by rw [m₆]; simp⟩,
            ⟨[], by rw [m₇]; simp⟩, ⟨[], by rw [m₈]; simp⟩, ⟨[], by rw [m₉]; simp⟩⟩
        have e₃ : Extends s₂ s₃ :=
          ⟨le_refl _, ⟨[], by simp⟩, ⟨[inst], rfl⟩, ⟨[], by simp⟩, ⟨[], by simp⟩,
            ⟨[], by simp⟩, ⟨[], by simp⟩, ⟨[], by simp⟩⟩
        have eS3 : Extends s s₃ :=
          extends_trans gext (extends_trans e₁ (extends_trans e₂ e₃))
        have hInstEq : s₂.instances = s.instances := by
          rw [hs₂def, m₄, p₅, u₁]
        have hinstMem : inst ∈ (traverseJsxList cs s₃).2.instances := by
          obtain ⟨l, hl⟩ := f₄.instances
          rw [hl]
          refine List.mem_append_left _ ?_
          show inst ∈ s₂.instances ++ [inst]
          exact List.mem_append_right _ (List.mem_singleton_self _)
        have hiidMem : (getId key s).1 ∈ instIds (traverseJsxList cs s₃).2.instances := by
          rw [instIds]
          exact List.mem_map.mpr ⟨inst, hinstMem, rfl⟩
        refine ⟨f₁, ?_, f₃, extends_trans eS3 f₄, ?_⟩
        · have hassoc : (visited ++ [key]) ++ ckeysForest cs =
              visited ++ key :: ckeysForest cs := by simp
          rwa [hassoc] at f₂
        · intro hfr
          have hfr' : (forestMembersNotFragment cs && noFragChildForest cs) = true := hfr
          rw [Bool.and_eq_true] at hfr'
          obtain ⟨c₁, c₂, c₃⟩ := f₅ hfr'.2
          refine ⟨?_, ?_, ?_⟩
          · intro v hv
            have hv2 : v = (getId key s).1 := by simpa [idRefs] using hv
            subst hv2
            exact hiidMem
          · intro inst' hml
            rcases c₂ inst' hml with hml2 | hres2
            · have hml2' : inst' ∈ s₂.instances ++ [inst] := hml2
              rcases List.mem_append.mp hml2' with hml3 | hml3
              · rw [hInstEq] at hml3
                exact Or.inl hml3
              · rcases List.mem_singleton.mp hml3 with rfl
                right
                intro v hv
                have hv' : v ∈ idRefs (mapChildren cs (processAttrs (getId key s).1 attrs
                    (getId key s).2)).1 := hv
                obtain ⟨k', hk'el, hlk'⟩ := m₁₀ hws.2 v hv'
                have hlk'' : s₃.ids.lookup k' = some v := hlk'
                have hk'c : k' ∈ ckeysForest cs :=
                  elemKeys_subset_ckeys cs hfr'.1 k' hk'el
                exact c₃ k' v hlk'' hk'c
            · exact Or.inr hres2
          · intro k' v hlk hk'
            rcases List.mem_cons.mp hk' with rfl | hk'2
            · have hg : getId k' s = (v, s) := getId_of_lookup_some hlk
              have hiv : (getId k' s).1 = v := by rw [hg]
              rw [← hiv]
              exact hiidMem
            · have hlk3 : s₃.ids.lookup k' = some v := lookup_extends eS3 hlk
              exact c₃ k' v hlk3 hk'2
  have hforest : ∀ cs, forestSize cs ≤ N → MasterForest cs := by
    intro cs hsz
    match cs with
    | .nil =>
      intro visited s hws hnd hids hinst hbp
      have hte : traverseJsxList JsxForest.nil s = ([], s) := rfl
      have hck : ckeysForest JsxForest.nil = ([] : List Nat) := rfl
      rw [hte, hck]
      refine ⟨hids, by rw [List.append_nil]; exact hinst, hbp, extends_refl s, ?_⟩
      intro _
      refine ⟨?_, ?_, ?_⟩
      · intro v hv
        simp [idRefs] at hv
      · intro inst hml
        exact Or.inl hml
      · intro k v _ hk
        simp at hk
    | .cons c rest =>
      have hszc : nodeSize c ≤ N := by
        simp only [forestSize] at hsz
        omega
      have hnc : MasterNode c := hnode c hszc
      have hszr : forestSize rest < N := by
        simp only [forestSize] at hsz
        have hp := nodeSize_pos c
        omega
      have hnr : MasterForest rest := (ih (forestSize rest) hszr).2 rest (le_refl _)
      intro visited s hws hnd hids hinst hbp
      rw [noWsIdForest, Bool.and_eq_true] at hws
      have hck : ckeysForest (JsxForest.cons c rest) =
          ckeysNode c ++ ckeysForest rest := rfl
      rw [hck] at hnd ⊢
      rw [← List.append_assoc] at hnd
      have hnd1 : (visited ++ ckeysNode c).Nodup :=
        List.Nodup.sublist (List.sublist_append_left _ _) hnd
      obtain ⟨n₁, n₂, n₃, n₄, n₅⟩ := hnc visited s hws.1 hnd1 hids hinst hbp
      obtain ⟨r₁, r₂, r₃, r₄, r₅⟩ :=
        hnr (visited ++ ckeysNode c) (traverseJsx c s).2 hws.2 hnd n₁ n₂ n₃
      have hte : traverseJsxList (JsxForest.cons c rest) s =
          ((traverseJsx c s).1 ++ (traverseJsxList rest (traverseJsx c s).2).1,
            (traverseJsxList rest (traverseJsx c s).2).2) := rfl
      rw [hte]
      refine ⟨r₁, ?_, r₃, extends_trans n₄ r₄, ?_⟩
      · rwa [← List.append_assoc]
      · intro hfr
        rw [noFragChildForest, Bool.and_eq_true] at hfr
        obtain ⟨cn₁, cn₂, cn₃⟩ := n₅ hfr.1
        obtain ⟨cr₁, cr₂, cr₃⟩ := r₅ hfr.2
        have hmono : ∀ v, v ∈ instIds (traverseJsx c s).2.instances →
            v ∈ instIds (traverseJsxList rest (traverseJsx c s).2).2.instances := by
          intro v hv
          obtain ⟨l, hl⟩ := r₄.instances
          rw [hl]
          exact instIds_mono hv
        refine ⟨?_, ?_, ?_⟩
        · intro v hv
          have hv2 : v ∈ idRefs (traverseJsx c s).1 ∨
              v ∈ idRefs (traverseJsxList rest (traverseJsx c s).2).1 := by
            rw [show idRefs ((traverseJsx c s).1 ++
                (traverseJsxList rest (traverseJsx c s).2).1) =
              idRefs (traverseJsx c s).1 ++
                idRefs (traverseJsxList rest (traverseJsx c s).2).1 from by
              simp [idRefs]] at hv
            exact List.mem_append.mp hv
          rcases hv2 with hv2 | hv2
          · exact hmono _ (cn₁ v hv2)
          · exact cr₁ v hv2
        · intro inst hml
          rcases cr₂ inst hml with hml2 | hres
          · rcases cn₂ inst hml2 with hml3 | hres2
            · exact Or.inl hml3
            · right
              intro v hv
              exact hmono _ (hres2 v hv)
          · exact Or.inr hres
        · intro k v hlk hk
          rcases List.mem_append.mp hk with hk | hk
          · exact hmono _ (cn₃ k v hlk hk)
          · exact cr₃ k v (lookup_extends n₄ hlk) hk
  exact ⟨hnode, hforest⟩

theorem masterNode (n : JsxNode) : MasterNode n :=
  (masterAll (nodeSize n)).1 n (le_refl _)

theorem initialState_idsOk : IdsOk initialState := by
  refine ⟨by simp [initialState], ?_, ?_, by simp [initialState]⟩ <;>
    · intro p hp
      simp [initialState] at hp

theorem initialState_instOk : InstOk [] initialState := by
  refine ⟨List.nodup_nil, by simp [initialState, instIds], ?_⟩
  intro inst hml
  simp [initialState] at hml

theorem initialState_bpOk : BpOk initialState := Or.inl rfl

/-! ### Unconditional append-only facts about the traversal -/

theorem stringAppend_left_inj (a : String) {b c : String} (h : a ++ b = a ++ c) :
    b = c := by
  have hd := congrArg String.data h
  rw [String.data_append, String.data_append] at hd
  have hbc := List.append_cancel_left hd
  cases b
  cases c
  exact congrArg String.mk hbc

theorem getBreakpointId_extends (s : RenderState) : Extends s (getBreakpointId s).2 := by
  unfold getBreakpointId
  cases hb : s.breakpoints with
  | nil =>
    exact ⟨le_refl _, ⟨[], by simp⟩, ⟨[], by simp⟩, ⟨[], by simp⟩,
      ⟨[{ id := "base", label := "" }], by rw [hb]⟩,
      ⟨[], by simp⟩, ⟨[], by simp⟩, ⟨[], by simp⟩⟩
  | cons b rest => exact extends_refl s

theorem pushStyles_extends (decls : List TemplateStyleDecl) (ssid : String)
    (s : RenderState) : Extends s (pushStyles ssid decls s) := by
  match decls with
  | [] => exact extends_refl s
  | d :: rest =>
    have e₁ := getBreakpointId_extends s
    have e₂ : Extends (getBreakpointId s).2
        ({ (getBreakpointId s).2 with styles := ((getBreakpointId s).2).styles ++
          [{ breakpointId := (getBreakpointId s).1, styleSourceId := ssid
             property := d.property, value := d.value }] } : RenderState) :=
      ⟨le_refl _, ⟨[], by simp⟩, ⟨[], by simp⟩, ⟨[], by simp⟩, ⟨[], by simp⟩,
        ⟨[], by simp⟩, ⟨[], by simp⟩, ⟨_, rfl⟩⟩
    have e₃ := pushStyles_extends rest ssid
      ({ (getBreakpointId s).2 with styles := ((getBreakpointId s).2).styles ++
        [{ breakpointId := (getBreakpointId s).1, styleSourceId := ssid
           property := d.property, value := d.value }] } : RenderState)
    exact extends_trans e₁ (extends_trans e₂ e₃)

theorem getBreakpointId_untouched (s : RenderState) :
    ((getBreakpointId s).2).instances = s.instances ∧
    ((getBreakpointId s).2).props = s.props ∧
    ((getBreakpointId s).2).ids = s.ids ∧
    ((getBreakpointId s).2).lastId = s.lastId ∧
    ((getBreakpointId s).2).styleSources = s.styleSources ∧
    ((getBreakpointId s).2).styleSourceSelections = s.styleSourceSelections := by
  unfold getBreakpointId
  cases hb : s.breakpoints <;> exact ⟨rfl, rfl, rfl, rfl, rfl, rfl⟩

theorem pushStyles_untouched (decls : List TemplateStyleDecl) (ssid : String)
    (s : RenderState) :
    (pushStyles ssid decls s).instances = s.instances ∧
    (pushStyles ssid decls s).props = s.props ∧
    (pushStyles ssid decls s).ids = s.ids ∧
    (pushStyles ssid decls s).lastId = s.lastId ∧
    (pushStyles ssid decls s).styleSources = s.styleSources ∧
    (pushStyles ssid decls s).styleSourceSelections = s.styleSourceSelections := by
  match decls with
  | [] => exact ⟨rfl, rfl, rfl, rfl, rfl, rfl⟩
  | d :: rest =>
    obtain ⟨i₁, i₂, i₃, i₄, i₅, i₆⟩ := pushStyles_untouched rest ssid
      ({ (getBreakpointId s).2 with styles := ((getBreakpointId s).2).styles ++
        [{ breakpointId := (getBreakpointId s).1, styleSourceId := ssid
           property := d.property, value := d.value }] } : RenderState)
    obtain ⟨b₁, b₂, b₃, b₄, b₅, b₆⟩ := getBreakpointId_untouched s
    exact ⟨i₁.trans b₁, i₂.trans b₂, i₃.trans b₃, i₄.trans b₄, i₅.trans b₅, i₆.trans b₆⟩

theorem processAttrs_untouched (entries : List (String × AttrValue)) (instanceId : String)
    (s : RenderState) :
    (processAttrs instanceId entries s).instances = s.instances ∧
    (processAttrs instanceId entries s).ids = s.ids ∧
    (processAttrs instanceId entries s).lastId = s.lastId := by
  match entries with
  | [] => exact ⟨rfl, rfl, rfl⟩
  | (name, value) :: rest =>
    unfold processAttrs
    by_cases h₁ : name = "ws:id" ∨ name = "ws:label" ∨ name = "children"
    · rw [if_pos h₁]
      exact processAttrs_untouched rest instanceId s
    · rw [if_neg h₁]
      by_cases h₂ : name = "ws:style"
      · rw [if_pos h₂]
        set s₁ : RenderState := { s with
          styleSources := s.styleSources ++
            [{ typ := "local", id := instanceId ++ ":" ++ name }]
          styleSourceSelections := s.styleSourceSelections ++
            [{ instanceId := instanceId, values := [instanceId ++ ":" ++ name] }] }
        obtain ⟨i₁, i₂, i₃⟩ := processAttrs_untouched rest instanceId
          (pushStyles (instanceId ++ ":" ++ name) (styleDeclsOf value) s₁)
        obtain ⟨p₁, p₂, p₃, p₄, p₅, p₆⟩ :=
          pushStyles_untouched (styleDeclsOf value) (instanceId ++ ":" ++ name) s₁
        exact ⟨i₁.trans p₁, i₂.trans p₃, i₃.trans p₄⟩
      · rw [if_neg h₂]
        exact processAttrs_untouched rest instanceId
          { s with props := s.props ++ [propOf instanceId name value] }

theorem processAttrs_props (entries : List (String × AttrValue)) (instanceId : String)
    (s : RenderState) :
    (processAttrs instanceId entries s).props = s.props ++
      ((entries.filter fun p => !isReserved p.1).map fun p => propOf instanceId p.1 p.2) := by
  match entries with
  | [] => simp [processAttrs]
  | (name, value) :: rest =>
    unfold processAttrs
    by_cases h₁ : name = "ws:id" ∨ name = "ws:label" ∨ name = "children"
    · rw [if_pos h₁, processAttrs_props rest instanceId s, List.filter_cons]
      rw [isReserved_trio h₁]
      simp
    · rw [if_neg h₁]
      by_cases h₂ : name = "ws:style"
      · rw [if_pos h₂]
        subst h₂
        set s₁ : RenderState := { s with
          styleSources := s.styleSources ++
            [{ typ := "local", id := instanceId ++ ":" ++ "ws:style" }]
          styleSourceSelections := s.styleSourceSelections ++
            [{ instanceId := instanceId
               values := [instanceId ++ ":" ++ "ws:style"] }] }
        rw [processAttrs_props rest instanceId
          (pushStyles (instanceId ++ ":" ++ "ws:style") (styleDeclsOf value) s₁)]
        obtain ⟨p₁, p₂, p₃, p₄, p₅, p₆⟩ :=
          pushStyles_untouched (styleDeclsOf value) (instanceId ++ ":" ++ "ws:style") s₁
        rw [p₂, List.filter_cons]
        rw [isReserved_style]
        simp
      · rw [if_neg h₂]
        rw [processAttrs_props rest instanceId
          { s with props := s.props ++ [propOf instanceId name value] }]
        rw [List.filter_cons]
        rw [isReserved_false h₁ h₂]
        show s.props ++ [propOf instanceId name value] ++ _ = _
        simp

theorem processAttrs_extends (entries : List (String × AttrValue)) (instanceId : String)
    (s : RenderState) : Extends s (processAttrs instanceId entries s) := by
  match entries with
  | [] => exact extends_refl s
  | (name, value) :: rest =>
    unfold processAttrs
    by_cases h₁ : name = "ws:id" ∨ name = "ws:label" ∨ name = "children"
    · rw [if_pos h₁]
      exact processAttrs_extends rest instanceId s
    · rw [if_neg h₁]
      by_cases h₂ : name = "ws:style"
      · rw [if_pos h₂]
        set s₁ : RenderState := { s with
          styleSources := s.styleSources ++
            [{ typ := "local", id := instanceId ++ ":" ++ name }]
          styleSourceSelections := s.styleSourceSelections ++
            [{ instanceId := instanceId, values := [instanceId ++ ":" ++ name] }] }
        have e₁ : Extends s s₁ :=
          ⟨le_refl _, ⟨[], by simp⟩, ⟨[], by simp⟩, ⟨[], by simp⟩, ⟨[], by simp⟩,
            ⟨_, rfl⟩, ⟨_, rfl⟩, ⟨[], by simp⟩⟩
        have e₂ := pushStyles_extends (styleDeclsOf value) (instanceId ++ ":" ++ name) s₁
        have e₃ := processAttrs_extends rest instanceId
          (pushStyles (instanceId ++ ":" ++ name) (styleDeclsOf value) s₁)
        exact extends_trans e₁ (extends_trans e₂ e₃)
      · rw [if_neg h₂]
        have e₁ : Extends s { s with props := s.props ++ [propOf instanceId name value] } :=
          ⟨le_refl _, ⟨[], by simp⟩, ⟨[], by simp⟩, ⟨_, rfl⟩, ⟨[], by simp⟩,
            ⟨[], by simp⟩, ⟨[], by simp⟩, ⟨[], by simp⟩⟩
        exact extends_trans e₁ (processAttrs_extends rest instanceId
          { s with props := s.props ++ [propOf instanceId name value] })

theorem mapChildren_untouched (cs : JsxForest) (s : RenderState) :
    ((mapChildren cs s).2).instances = s.instances ∧
    ((mapChildren cs s).2).props = s.props ∧
    ((mapChildren cs s).2).breakpoints = s.breakpoints ∧
    ((mapChildren cs s).2).styleSources = s.styleSources ∧
    ((mapChildren cs s).2).styleSourceSelections = s.styleSourceSelections ∧
    ((mapChildren cs s).2).styles = s.styles ∧
    Extends s (mapChildren cs s).2 := by
  match cs with
  | .nil => exact ⟨rfl, rfl, rfl, rfl, rfl, rfl, extends_refl s⟩
  | .cons c rest =>
    have hcr : ((childRef c s).2).instances = s.instances ∧
        ((childRef c s).2).props = s.props ∧
        ((childRef c s).2).breakpoints = s.breakpoints ∧
        ((childRef c s).2).styleSources = s.styleSources ∧
        ((childRef c s).2).styleSourceSelections = s.styleSourceSelections ∧
        ((childRef c s).2).styles = s.styles ∧
        Extends s (childRef c s).2 := by
      match c with
      | .text t => exact ⟨rfl, rfl, rfl, rfl, rfl, rfl, extends_refl s⟩
      | .placeholder t => exact ⟨rfl, rfl, rfl, rfl, rfl, rfl, extends_refl s⟩
      | .expression t => exact ⟨rfl, rfl, rfl, rfl, rfl, rfl, extends_refl s⟩
      | .element ty k attrs gs =>
        cases hws : lookupString attrs "ws:id" with
        | some i =>
          have hcr2 : childRef (JsxNode.element ty k attrs gs) s = (Child.id i, s) := by
            simp [childRef, hws]
          rw [hcr2]
          exact ⟨rfl, rfl, rfl, rfl, rfl, rfl, extends_refl s⟩
        | none =>
          have hcr2 : childRef (JsxNode.element ty k attrs gs) s =
              (Child.id (getId k s).1, (getId k s).2) := by
            simp [childRef, hws]
          rw [hcr2]
          obtain ⟨u₁, u₂, u₃, u₄, u₅, u₆⟩ := getId_untouched k s
          exact ⟨u₁, u₂, u₃, u₄, u₅, u₆, getId_extends k s⟩
    obtain ⟨c₁, c₂, c₃, c₄, c₅, c₆, c₇⟩ := hcr
    obtain ⟨i₁, i₂, i₃, i₄, i₅, i₆, i₇⟩ := mapChildren_untouched rest (childRef c s).2
    exact ⟨i₁.trans c₁, i₂.trans c₂, i₃.trans c₃, i₄.trans c₄, i₅.trans c₅, i₆.trans c₆,
      extends_trans c₇ i₇⟩

theorem resolveId_untouched (attrs : List (String × AttrValue)) (key : Nat)
    (s : RenderState) :
    ((resolveId attrs key s).2).instances = s.instances ∧
    ((resolveId attrs key s).2).props = s.props ∧
    ((resolveId attrs key s).2).breakpoints = s.breakpoints ∧
    ((resolveId attrs key s).2).styleSources = s.styleSources ∧
    ((resolveId attrs key s).2).styleSourceSelections = s.styleSourceSelections ∧
    ((resolveId attrs key s).2).styles = s.styles ∧
    Extends s (resolveId attrs key s).2 := by
  unfold resolveId
  cases hws : lookupString attrs "ws:id" with
  | some i => exact ⟨rfl, rfl, rfl, rfl, rfl, rfl, extends_refl s⟩
  | none =>
    obtain ⟨u₁, u₂, u₃, u₄, u₅, u₆⟩ := getId_untouched key s
    exact ⟨u₁, u₂, u₃, u₄, u₅, u₆, getId_extends key s⟩

theorem processElement_decomp (dn : String) (key : Nat)
    (attrs : List (String × AttrValue)) (cs : JsxForest) (s : RenderState) :
    ∃ inst : Instance,
      (processElement dn key attrs cs s).1 = Child.id inst.id ∧
      (processElement dn key attrs cs s).2.instances = s.instances ++ [inst] ∧
      inst.id = (resolveId attrs key s).1 ∧
      inst.component = dn ∧
      inst.label = (match lookupString attrs "ws:label" with
        | some l => if l = "" then none else some l
        | none => none) ∧
      (∃ own, (processElement dn key attrs cs s).2.props = s.props ++ own) ∧
      (∃ own, (processElement dn key attrs cs s).2.styles = s.styles ++ own) ∧
      Extends s (processElement dn key attrs cs s).2 := by
  obtain ⟨r₁, r₂, r₃, r₄, r₅, r₆, r₇⟩ := resolveId_untouched attrs key s
  obtain ⟨a₁, a₂, a₃⟩ := processAttrs_untouched attrs (resolveId attrs key s).1
    (resolveId attrs key s).2
  have aext := processAttrs_extends attrs (resolveId attrs key s).1 (resolveId attrs key s).2
  obtain ⟨m₁, m₂, m₃, m₄, m₅, m₆, m₇⟩ := mapChildren_untouched cs
    (processAttrs (resolveId attrs key s).1 attrs (resolveId attrs key s).2)
  set iid := (resolveId attrs key s).1 with hiid
  set s₂ := (mapChildren cs (processAttrs (resolveId attrs key s).1 attrs
    (resolveId attrs key s).2)).2 with hs₂def
  set inst : Instance :=
    { id := iid, component := dn
      label := match lookupString attrs "ws:label" with
        | some l => if l = "" then none else some l
        | none => none
      children := (mapChildren cs (processAttrs (resolveId attrs key s).1 attrs
        (resolveId attrs key s).2)).1 } with hinstdef
  have hpe : processElement dn key attrs cs s =
      (Child.id iid, { s₂ with instances := s₂.instances ++ [inst] }) := rfl
  rw [hpe]
  have epush : Extends s₂ ({ s₂ with instances := s₂.instances ++ [inst] } : RenderState) :=
    ⟨le_refl _, ⟨[], by simp⟩, ⟨[inst], rfl⟩, ⟨[], by simp⟩, ⟨[], by simp⟩,
      ⟨[], by simp⟩, ⟨[], by simp⟩, ⟨[], by simp⟩⟩
  refine ⟨inst, rfl, ?_, rfl, rfl, rfl, ?_, ?_, ?_⟩
  · show s₂.instances ++ [inst] = s.instances ++ [inst]
    rw [m₁, a₁, r₁]
  · obtain ⟨l, hl⟩ := aext.props
    refine ⟨l, ?_⟩
    show s₂.props = s.props ++ l
    rw [m₂, hl, r₂]
  · obtain ⟨l, hl⟩ := aext.styles
    refine ⟨l, ?_⟩
    show s₂.styles = s.styles ++ l
    rw [m₆, hl, r₆]
  · exact extends_trans r₇ (extends_trans aext (extends_trans m₇ epush))

theorem traverseExtendsAll : ∀ N : Nat,
    (∀ (n : JsxNode) (s : RenderState), nodeSize n ≤ N → Extends s (traverseJsx n s).2) ∧
    (∀ (cs : JsxForest) (s : RenderState), forestSize cs ≤ N →
      Extends s (traverseJsxList cs s).2) := by
  intro N
  induction N using Nat.strong_induction_on with
  | _ N ih =>
  have hnode : ∀ (n : JsxNode) (s : RenderState), nodeSize n ≤ N →
      Extends s (traverseJsx n s).2 := by
    intro n s hn
    match n with
    | .text t => exact extends_refl s
    | .placeholder t => exact extends_refl s
    | .expression t => exact extends_refl s
    | .element ty key attrs cs =>
      have hsz : forestSize cs < N := by
        simp only [nodeSize] at hn
        omega
      match ty with
      | .fragment => exact (ih _ hsz).2 cs s (le_refl _)
      | .component dn =>
        obtain ⟨inst, d₁, d₂, d₃, d₄, d₅, d₆, d₇, d₈⟩ := processElement_decomp dn key attrs cs s
        exact extends_trans d₈
          ((ih _ hsz).2 cs (processElement dn key attrs cs s).2 (le_refl _))
  have hforest : ∀ (cs : JsxForest) (s : RenderState), forestSize cs ≤ N →
      Extends s (traverseJsxList cs s).2 := by
    intro cs s hsz
    match cs with
    | .nil => exact extends_refl s
    | .cons c rest =>
      have h₁ : Extends s (traverseJsx c s).2 :=
        hnode c s (by simp only [forestSize] at hsz; omega)
      have hsr : forestSize rest < N := by
        simp only [forestSize] at hsz
        have := nodeSize_pos c
        omega
      exact extends_trans h₁ ((ih _ hsr).2 rest (traverseJsx c s).2 (le_refl _))
  exact ⟨hnode, hforest⟩

theorem traverseJsx_extends (n : JsxNode) (s : RenderState) :
    Extends s (traverseJsx n s).2 :=
  (traverseExtendsAll (nodeSize n)).1 n s (le_refl _)

theorem traverseJsxList_extends (cs : JsxForest) (s : RenderState) :
    Extends s (traverseJsxList cs s).2 :=
  (traverseExtendsAll (forestSize cs)).2 cs s (le_refl _)

/-! ### Breakpoint bookkeeping through the whole traversal -/

theorem bpOk_of_ite {s t : RenderState} {cond : Bool} (h : BpOk s)
    (ht : t.breakpoints = (if cond then [baseBreakpoint] else s.breakpoints)) : BpOk t := by
  cases cond with
  | true =>
    right
    simpa using ht
  | false =>
    rw [BpOk, ht]
    simpa using h

theorem processAttrs_breakpoints (entries : List (String × AttrValue)) (instanceId : String)
    (s : RenderState) (h : BpOk s) :
    (processAttrs instanceId entries s).breakpoints =
      (if entries.any (fun p => p.1 == "ws:style" && !(styleDeclsOf p.2).isEmpty)
        then [baseBreakpoint] else s.breakpoints) := by
  match entries with
  | [] => simp [processAttrs]
  | (name, value) :: rest =>
    unfold processAttrs
    by_cases h₁ : name = "ws:id" ∨ name = "ws:label" ∨ name = "children"
    · rw [if_pos h₁]
      have hne : (name == "ws:style") = false := by
        rcases h₁ with rfl | rfl | rfl <;> decide
      rw [processAttrs_breakpoints rest instanceId s h]
      rw [List.any_cons]
      rw [hne]
      simp only [Bool.false_and, Bool.false_or]
    · rw [if_neg h₁]
      by_cases h₂ : name = "ws:style"
      · rw [if_pos h₂]
        subst h₂
        set s₁ : RenderState := { s with
          styleSources := s.styleSources ++
            [{ typ := "local", id := instanceId ++ ":" ++ "ws:style" }]
          styleSourceSelections := s.styleSourceSelections ++
            [{ instanceId := instanceId
               values := [instanceId ++ ":" ++ "ws:style"] }] } with hs₁
        have hbp₁ : BpOk s₁ := h
        obtain ⟨p₁, p₂, p₃, p₄, p₅, p₆, p₇, p₈, p₉⟩ :=
          pushStyles_spec (styleDeclsOf value) (instanceId ++ ":" ++ "ws:style") hbp₁
        rw [processAttrs_breakpoints rest instanceId
          (pushStyles (instanceId ++ ":" ++ "ws:style") (styleDeclsOf value) s₁) p₃]
        rw [List.any_cons]
        by_cases hemp : (styleDeclsOf value).isEmpty
        · rw [p₂]
          rw [if_pos hemp]
          have : (("ws:style" == "ws:style") && !(styleDeclsOf value).isEmpty) = false := by
            rw [hemp]
            simp
          rw [this]
          simp only [Bool.false_or]
        · have hbase : (pushStyles (instanceId ++ ":" ++ "ws:style")
              (styleDeclsOf value) s₁).breakpoints = [baseBreakpoint] := by
            rw [p₂, if_neg hemp]
          rw [hbase]
          have : (("ws:style" == "ws:style") && !(styleDeclsOf value).isEmpty) = true := by
            simp only [Bool.and_eq_true, beq_self_eq_true, true_and, Bool.not_eq_true']
            exact Bool.eq_false_iff.mpr hemp
          rw [this]
          rw [Bool.true_or, if_pos rfl, ite_self]
      · rw [if_neg h₂]
        have hne : (name == "ws:style") = false := by
          simpa using h₂
        rw [processAttrs_breakpoints rest instanceId
          { s with props := s.props ++ [propOf instanceId name value] } h]
        rw [List.any_cons]
        rw [hne]
        simp only [Bool.false_and, Bool.false_or]

theorem bpAll : ∀ N : Nat,
    (∀ (n : JsxNode) (s : RenderState), nodeSize n ≤ N → BpOk s →
      (traverseJsx n s).2.breakpoints =
        (if declaresStylesNode n then [baseBreakpoint] else s.breakpoints)) ∧
    (∀ (cs : JsxForest) (s : RenderState), forestSize cs ≤ N → BpOk s →
      (traverseJsxList cs s).2.breakpoints =
        (if declaresStylesForest cs then [baseBreakpoint] else s.breakpoints)) := by
  intro N
  induction N using Nat.strong_induction_on with
  | _ N ih =>
  have hnode : ∀ (n : JsxNode) (s : RenderState), nodeSize n ≤ N → BpOk s →
      (traverseJsx n s).2.breakpoints =
        (if declaresStylesNode n then [baseBreakpoint] else s.breakpoints) := by
    intro n s hn hbp
    match n with
    | .text t => simp [traverseJsx, declaresStylesNode]
    | .placeholder t => simp [traverseJsx, declaresStylesNode]
    | .expression t => simp [traverseJsx, declaresStylesNode]
    | .element ty key attrs cs =>
      have hsz : forestSize cs < N := by
        simp only [nodeSize] at hn
        omega
      match ty with
      | .fragment =>
        have := (ih _ hsz).2 cs s (le_refl _) hbp
        exact this
      | .component dn =>
        obtain ⟨r₁, r₂, r₃, r₄, r₅, r₆, r₇⟩ := resolveId_untouched attrs key s
        have hbp₀ : BpOk (resolveId attrs key s).2 := bpOk_of_eq hbp r₃
        have hpa := processAttrs_breakpoints attrs (resolveId attrs key s).1
          (resolveId attrs key s).2 hbp₀
        rw [r₃] at hpa
        obtain ⟨m₁, m₂, m₃, m₄, m₅, m₆, m₇⟩ := mapChildren_untouched cs
          (processAttrs (resolveId attrs key s).1 attrs (resolveId attrs key s).2)
        have hs₃ : (processElement dn key attrs cs s).2.breakpoints =
            (if attrs.any (fun p => p.1 == "ws:style" && !(styleDeclsOf p.2).isEmpty)
              then [baseBreakpoint] else s.breakpoints) := by
          show (mapChildren cs (processAttrs (resolveId attrs key s).1 attrs
            (resolveId attrs key s).2)).2.breakpoints = _
          rw [m₃, hpa]
        have hbp₃ : BpOk (processElement dn key attrs cs s).2 := bpOk_of_ite hbp hs₃
        have hrest := (ih _ hsz).2 cs (processElement dn key attrs cs s).2 (le_refl _) hbp₃
        show (traverseJsxList cs (processElement dn key attrs cs s).2).2.breakpoints = _
        rw [hrest, hs₃]
        have hd : declaresStylesNode (JsxNode.element (ElemType.component dn) key attrs cs) =
            ((attrs.any fun p => p.1 == "ws:style" && !(styleDeclsOf p.2).isEmpty) ||
              declaresStylesForest cs) := rfl
        rw [hd]
        by_cases ha : (attrs.any fun p => p.1 == "ws:style" && !(styleDeclsOf p.2).isEmpty) = true
        · rw [ha]
          simp
        · rw [Bool.not_eq_true] at ha
          rw [ha]
          simp
  have hforest : ∀ (cs : JsxForest) (s : RenderState), forestSize cs ≤ N → BpOk s →
      (traverseJsxList cs s).2.breakpoints =
        (if declaresStylesForest cs then [baseBreakpoint] else s.breakpoints) := by
    intro cs s hsz hbp
    match cs with
    | .nil => simp [traverseJsxList, declaresStylesForest]
    | .cons c rest =>
      have hc := hnode c s (by simp only [forestSize] at hsz; omega) hbp
      have hbpc : BpOk (traverseJsx c s).2 := bpOk_of_ite hbp hc
      have hsr : forestSize rest < N := by
        simp only [forestSize] at hsz
        have := nodeSize_pos c
        omega
      have hr := (ih _ hsr).2 rest (traverseJsx c s).2 (le_refl _) hbpc
      show (traverseJsxList rest (traverseJsx c s).2).2.breakpoints = _
      rw [hr, hc]
      have hd : declaresStylesForest (JsxForest.cons c rest) =
          (declaresStylesNode c || declaresStylesForest rest) := rfl
      rw [hd]
      by_cases ha : declaresStylesNode c = true
      · rw [ha]
        simp
      · rw [Bool.not_eq_true] at ha
        rw [ha]
        simp
  exact ⟨hnode, hforest⟩

/-! ### Referential integrity and id uniqueness -/

theorem filter_id_length_one {instances : List Instance} {v : String}
    (hnd : (instIds instances).Nodup) (hv : v ∈ instIds instances) :
    (instances.filter fun i => i.id == v).length = 1 := by
  induction instances with
  | nil => simp [instIds] at hv
  | cons i rest ih =>
    have hic : instIds (i :: rest) = i.id :: instIds rest := rfl
    rw [hic] at hnd hv
    rw [List.nodup_cons] at hnd
    rw [List.filter_cons]
    by_cases hid : i.id = v
    · have hb : (i.id == v) = true := by simpa using hid
      rw [hb]
      have hnone : rest.filter (fun i => i.id == v) = [] := by
        rw [List.filter_eq_nil_iff]
        intro a ha
        simp only [Bool.not_eq_true, beq_eq_false_iff_ne, ne_eq]
        intro heq
        apply hnd.1
        rw [hid, ← heq]
        exact List.mem_map.mpr ⟨a, ha, rfl⟩
      rw [hnone]
      rfl
    · have hb : (i.id == v) = false := by simpa using hid
      rw [hb]
      have hv2 : v ∈ instIds rest := by
        rcases List.mem_cons.mp hv with rfl | hmem
        · exact absurd rfl hid
        · exact hmem
      exact ih hnd.2 hv2

theorem childResolves_of {instances : List Instance} (hnd : (instIds instances).Nodup)
    (c : Child) (h : ∀ v, c = Child.id v → v ∈ instIds instances) :
    childResolves instances c = true := by
  match c with
  | .text t p => rfl
  | .expression e => rfl
  | .id v =>
    have hv := h v rfl
    show ((instances.filter fun i => i.id == v).length == 1) = true
    rw [filter_id_length_one hnd hv]
    rfl

/-- C1 (amended): referential integrity of the output.  Provided no
element carries an explicit `ws:id`, no fragment-marker element occurs
as a child of a concrete element, and the concrete elements have
pairwise distinct identities, every `{type:"id"}` reference in the
output's top-level children list and in every produced instance's
children list resolves to exactly one instance of the output. -/
theorem c1_referential_integrity (root : JsxNode)
    (h₁ : noWsIdNode root = true) (h₂ : noFragChildNode root = true)
    (h₃ : (ckeysNode root).Nodup) :
    fragmentIntegrity (renderTemplate root) = true := by
  obtain ⟨hids, hinstok, hbp, hext, hc1⟩ := masterNode root [] initialState h₁
    (by simpa using h₃) initialState_idsOk initialState_instOk initialState_bpOk
  obtain ⟨ctop, cper, ccov⟩ := hc1 h₂
  have hnd : (instIds (traverseJsx root initialState).2.instances).Nodup := hinstok.2.1
  rw [fragmentIntegrity, Bool.and_eq_true]
  constructor
  · rw [List.all_eq_true]
    intro c hc
    refine childResolves_of hnd c ?_
    intro v hcv
    refine ctop v ?_
    exact List.mem_filterMap.mpr ⟨c, hc, by rw [hcv]⟩
  · rw [List.all_eq_true]
    intro i hi
    rw [List.all_eq_true]
    intro c hc
    refine childResolves_of hnd c ?_
    intro v hcv
    rcases cper i hi with hin | hres
    · simp [initialState] at hin
    · refine hres v ?_
      exact List.mem_filterMap.mpr ⟨c, hc, by rw [hcv]⟩

/-- C1 counterexample: in `exC1` a fragment marker is the child of a
concrete `Box`, so the parent's children list holds the reference
`{type:"id", value:"1"}` allocated for the fragment object itself, and
no instance with id `"1"` is ever produced. -/
theorem c1_counterexample : fragmentIntegrity (renderTemplate exC1) = false := by decide

theorem c1_witness :
    noWsIdNode exW1 = true ∧ noFragChildNode exW1 = true ∧ (ckeysNode exW1).Nodup ∧
      fragmentIntegrity (renderTemplate exW1) = true :=
  ⟨by decide, by decide, by decide,
    c1_referential_integrity exW1 (by decide) (by decide) (by decide)⟩

/-- C5 (amended): if no element of the input carries an explicit
`ws:id` attribute and the concrete elements have pairwise distinct
identities, then the produced instances collection contains no two
entries with the same id. -/
theorem c5_instance_ids_unique (root : JsxNode) (h₁ : noWsIdNode root = true)
    (h₂ : (ckeysNode root).Nodup) :
    (instIds (renderTemplate root).instances).Nodup :=
  (masterNode root [] initialState h₁ (by simpa using h₂)
    initialState_idsOk initialState_instOk initialState_bpOk).2.1.2.1

/-- C5 counterexample: in `exC5` no two distinct nodes carry the same
explicit identifier (only the root carries one, `"0"`), yet the child's
synthesized identifier is also `"0"`, so the instances collection holds
two entries with id `"0"`. -/
theorem c5_counterexample :
    (explicitIdsNode exC5).Nodup ∧
      instIds (renderTemplate exC5).instances = ["0", "0"] ∧
      ¬(instIds (renderTemplate exC5).instances).Nodup := by decide

theorem c5_witness :
    noWsIdNode exW5 = true ∧ (ckeysNode exW5).Nodup ∧
      (instIds (renderTemplate exW5).instances).Nodup :=
  ⟨by decide, by decide, c5_instance_ids_unique exW5 (by decide) (by decide)⟩

/-! ### The allocator claims -/

theorem getId_lookup_self (k : Nat) (s : RenderState) :
    ((getId k s).2).ids.lookup k = some (getId k s).1 := by
  unfold getId
  cases hl : s.ids.lookup k with
  | some v =>
    dsimp only
    exact hl
  | none =>
    dsimp only
    rw [lookup_append_none hl]
    rw [List.lookup_cons]
    simp

theorem getId_of_lookup_none {s : RenderState} {k : Nat}
    (h : s.ids.lookup k = none) : (getId k s).1 = toString (s.lastId + 1) := by
  unfold getId
  rw [h]

/-- C4 (amended): within one traversal the allocator returns the same
identifier for the same identity on every lookup (and records nothing
new on the second lookup); two distinct identities never receive the
same identifier from the allocator; an explicit `ws:id` is honored
verbatim and leaves the identity map untouched (it is *not* recorded),
and the produced instance carries it unchanged. -/
theorem c4_allocator :
    (∀ (k : Nat) (s : RenderState),
      getId k ((getId k s).2) = ((getId k s).1, (getId k s).2)) ∧
    (∀ (k₁ k₂ : Nat) (s : RenderState), IdsOk s → k₁ ≠ k₂ →
      (getId k₁ s).1 ≠ (getId k₂ ((getId k₁ s).2)).1) ∧
    (∀ (attrs : List (String × AttrValue)) (key : Nat) (s : RenderState) (i : String),
      lookupString attrs "ws:id" = some i → resolveId attrs key s = (i, s)) ∧
    (∀ (dn : String) (key : Nat) (attrs : List (String × AttrValue)) (cs : JsxForest)
      (s : RenderState) (i : String), lookupString attrs "ws:id" = some i →
      ∃ inst : Instance,
        (processElement dn key attrs cs s).2.instances = s.instances ++ [inst] ∧
        inst.id = i) := by
  refine ⟨?_, ?_, ?_, ?_⟩
  · intro k s
    exact getId_of_lookup_some (getId_lookup_self k s)
  · intro k₁ k₂ s h hne
    obtain ⟨h₁ok, hlk₁⟩ := getId_idsOk h k₁
    cases hl₂ : ((getId k₁ s).2).ids.lookup k₂ with
    | some v =>
      have hg : getId k₂ ((getId k₁ s).2) = (v, (getId k₁ s).2) := getId_of_lookup_some hl₂
      rw [hg]
      intro heq
      have hm₁ := lookup_mem hlk₁
      have hm₂ := lookup_mem hl₂
      exact hne (h₁ok.2.2.1 _ hm₁ _ hm₂ heq)
    | none =>
      have hg : (getId k₂ ((getId k₁ s).2)).1 =
          toString (((getId k₁ s).2).lastId + 1) := getId_of_lookup_none hl₂
      rw [hg]
      intro heq
      have hm₁ := lookup_mem hlk₁
      obtain ⟨n, hn, hv⟩ := h₁ok.2.1 _ hm₁
      have hv2 : (getId k₁ s).1 = toString ((n : Nat) : Int) := hv
      rw [hv2] at heq
      have hnn : (0 : Int) ≤ ((getId k₁ s).2).lastId + 1 := by
        have := h₁ok.1
        omega
      have := intToString_inj (Int.ofNat_nonneg n) hnn heq
      omega
  · intro attrs key s i h
    exact resolveId_of_some h
  · intro dn key attrs cs s i h
    obtain ⟨inst, d₁, d₂, d₃, d₄, d₅, d₆, d₇, d₈⟩ := processElement_decomp dn key attrs cs s
    refine ⟨inst, d₂, ?_⟩
    rw [d₃, resolveId_of_some h]

/-- C4 counterexample: in `exC4` the first `Box` carries the explicit
identifier `"0"`, which is *not* recorded in the identity map, so the
second `Box` receives the synthesized identifier `"0"` — a later
synthesized identifier collides with the caller-supplied one. -/
theorem c4_counterexample :
    explicitIdsNode exC4 = ["0"] ∧
      (renderTemplate exC4).instances.map (fun i => i.id) = ["0", "0"] := by decide

theorem c4_witness :
    getId 0 ((getId 0 initialState).2) = ((getId 0 initialState).1, (getId 0 initialState).2) ∧
      (getId 0 initialState).1 ≠ (getId 1 ((getId 0 initialState).2)).1 ∧
      resolveId [("ws:id", AttrValue.str "x")] 5 initialState = ("x", initialState) :=
  ⟨c4_allocator.1 0 initialState,
    c4_allocator.2.1 0 1 initialState initialState_idsOk (by decide),
    c4_allocator.2.2.1 [("ws:id", AttrValue.str "x")] 5 initialState "x" (by decide)⟩

/-! ### Fragment transparency and determinism -/

/-- C2: normalizing `Fragment[A, Fragment[B, C], D]` produces exactly
the same output — same flat top-level sibling order, same instances
collection, and the same for every other field — as normalizing
`Fragment[A, B, C, D]`, whatever the four nodes and whatever attributes
or identities the two fragment markers carry. -/
theorem c2_fragment_transparency (k₁ k₂ : Nat) (a₁ a₂ : List (String × AttrValue))
    (A B C D : JsxNode) :
    renderTemplate (.element .fragment k₁ a₁
      (.cons A (.cons (.element .fragment k₂ a₂ (.cons B (.cons C .nil)))
        (.cons D .nil)))) =
    renderTemplate (.element .fragment k₁ a₁
      (.cons A (.cons B (.cons C (.cons D .nil))))) := by
  have hstate : (traverseJsx (.element .fragment k₁ a₁
      (.cons A (.cons (.element .fragment k₂ a₂ (.cons B (.cons C .nil)))
        (.cons D .nil)))) initialState).2 =
      (traverseJsx (.element .fragment k₁ a₁
        (.cons A (.cons B (.cons C (.cons D .nil))))) initialState).2 := rfl
  have hchildren : (traverseJsx (.element .fragment k₁ a₁
      (.cons A (.cons (.element .fragment k₂ a₂ (.cons B (.cons C .nil)))
        (.cons D .nil)))) initialState).1 =
      (traverseJsx (.element .fragment k₁ a₁
        (.cons A (.cons B (.cons C (.cons D .nil))))) initialState).1 := by
    simp [traverseJsx, traverseJsxList]
  unfold renderTemplate
  rw [hchildren, hstate]

/-- C9: normalization is deterministic and no state persists across
invocations: the embedding threads the counter and the identity map
explicitly, `renderTemplate` builds its initial state internally, and
running it after any sequence of prior runs returns exactly the value
of a fresh run on the same tree. -/
theorem c9_determinism (prior : List JsxNode) (root : JsxNode) :
    ((prior ++ [root]).map renderTemplate).getLast? = some (renderTemplate root) := by
  rw [List.map_append]
  simp

/-! ### Pre-order accumulation -/

/-- C8: the collections accumulate in depth-first pre-order: processing
one concrete element appends exactly one instance (its own, carrying its
`displayName`) before any descendant instance is appended, and the props
and style declarations appended for the element itself sit before those
of its descendants. -/
theorem c8_preorder (dn : String) (key : Nat) (attrs : List (String × AttrValue))
    (cs : JsxForest) (s : RenderState) :
    ∃ inst : Instance, inst.component = dn ∧
      (processElement dn key attrs cs s).2.instances = s.instances ++ [inst] ∧
      (∃ own, (processElement dn key attrs cs s).2.props = s.props ++ own) ∧
      (∃ own, (processElement dn key attrs cs s).2.styles = s.styles ++ own) ∧
      (∃ rest, (traverseJsx (.element (.component dn) key attrs cs) s).2.instances =
        (processElement dn key attrs cs s).2.instances ++ rest) ∧
      (∃ rest, (traverseJsx (.element (.component dn) key attrs cs) s).2.props =
        (processElement dn key attrs cs s).2.props ++ rest) ∧
      (∃ rest, (traverseJsx (.element (.component dn) key attrs cs) s).2.styles =
        (processElement dn key attrs cs s).2.styles ++ rest) := by
  obtain ⟨inst, d₁, d₂, d₃, d₄, d₅, d₆, d₇, d₈⟩ := processElement_decomp dn key attrs cs s
  have hext := traverseJsxList_extends cs (processElement dn key attrs cs s).2
  exact ⟨inst, d₄, d₂, d₆, d₇, hext.instances, hext.props, hext.styles⟩

/-! ### Label truthiness -/

/-- C10: the produced instance carries a `label` field exactly when the
`ws:label` attribute is present with a truthy (non-empty) string value;
an empty string yields an instance with no label field at all. -/
theorem c10_label_truthiness (dn : String) (key : Nat)
    (attrs : List (String × AttrValue)) (cs : JsxForest) (s : RenderState) :
    ∃ inst : Instance,
      (processElement dn key attrs cs s).2.instances = s.instances ++ [inst] ∧
      (inst.label = none ↔
        (lookupString attrs "ws:label" = none ∨ lookupString attrs "ws:label" = some "")) ∧
      (∀ l, lookupString attrs "ws:label" = some l → l ≠ "" → inst.label = some l) := by
  obtain ⟨inst, d₁, d₂, d₃, d₄, d₅, d₆, d₇, d₈⟩ := processElement_decomp dn key attrs cs s
  refine ⟨inst, d₂, ?_, ?_⟩
  · rw [d₅]
    cases hl : lookupString attrs "ws:label" with
    | none => simp
    | some l =>
      by_cases he : l = ""
      · subst he
        simp
      · simp [he]
  · intro l hl hne
    rw [d₅, hl]
    simp [hne]

theorem c10_witness :
    ∃ inst : Instance,
      (processElement "Box" 0 [("ws:label", AttrValue.str "")] JsxForest.nil
        initialState).2.instances = initialState.instances ++ [inst] ∧
      inst.label = none := by
  obtain ⟨inst, h₁, h₂, h₃⟩ := c10_label_truthiness "Box" 0
    [("ws:label", AttrValue.str "")] JsxForest.nil initialState
  exact ⟨inst, h₁, h₂.mpr (Or.inr (by decide))⟩

/-! ### Typed-value dispatch -/

/-- C3: the dispatcher is total with no error path — every non-reserved
attribute entry appends exactly one `Prop` record — its discriminant is
exactly the shape classifier of the spec (with everything beyond the
nine recognized shapes degrading to `"json"`), and for each shape the
carried value is the wrapped payload or the plain value; a `json` value
is carried unchanged (the action payload is wrapped in a singleton list,
as the `Prop` schema for actions prescribes). -/
theorem c3_dispatch_total :
    (∀ (instanceId name : String) (v : AttrValue) (s : RenderState),
      isReserved name = false →
      (processAttrs instanceId [(name, v)] s).props = s.props ++ [propOf instanceId name v]) ∧
    (∀ v : AttrValue, (propValueOf v).kind = attrShape v) ∧
    (∀ j : JsonValue, propValueOf (.json j) = .json j) ∧
    (∀ e, propValueOf (.expression e) = .expression e) ∧
    (∀ p, propValueOf (.parameter p) = .parameter p) ∧
    (∀ r, propValueOf (.resource r) = .resource r) ∧
    (∀ args code, propValueOf (.action args code) =
      .action [{ typ := "execute", args := args, code := code }]) ∧
    (∀ a, propValueOf (.asset a) = .asset a) ∧
    (∀ p, propValueOf (.page p) = .page p) ∧
    (∀ t, propValueOf (.str t) = .str t) ∧
    (∀ n, propValueOf (.num n) = .num n) ∧
    (∀ b, propValueOf (.bool b) = .bool b) := by
  refine ⟨?_, ?_, fun j => rfl, fun e => rfl, fun p => rfl, fun r => rfl,
    fun args code => rfl, fun a => rfl, fun p => rfl, fun t => rfl, fun n => rfl,
    fun b => rfl⟩
  · intro instanceId name v s hres
    rw [processAttrs_props]
    simp [List.filter_cons, hres]
  · intro v
    cases v <;> rfl

theorem c3_witness :
    isReserved "data-x" = false ∧
      (processAttrs "7" [("data-x", AttrValue.json (JsonValue.obj [("a", JsonValue.num 1)]))]
        initialState).props = initialState.props ++
          [propOf "7" "data-x" (AttrValue.json (JsonValue.obj [("a", JsonValue.num 1)]))] :=
  ⟨by decide, c3_dispatch_total.1 "7" "data-x"
    (AttrValue.json (JsonValue.obj [("a", JsonValue.num 1)])) initialState (by decide)⟩

/-! ### Reserved attributes and prop identifiers -/

/-- C7: a `Prop` record is produced for an attribute entry exactly when
its name is none of the four reserved names — the produced props are
precisely the non-reserved entries in order — each produced prop's id is
`${instanceId}:${name}` (a deterministic function of the pair, so
re-derivation is idempotent), and when attribute names are unique the
derived prop ids are pairwise distinct. -/
theorem c7_reserved_and_prop_ids :
    (∀ (instanceId : String) (entries : List (String × AttrValue)) (s : RenderState),
      (processAttrs instanceId entries s).props = s.props ++
        ((entries.filter fun p => !isReserved p.1).map fun p => propOf instanceId p.1 p.2)) ∧
    (∀ (instanceId name : String) (v : AttrValue),
      (propOf instanceId name v).id = instanceId ++ ":" ++ name ∧
      (propOf instanceId name v).instanceId = instanceId ∧
      (propOf instanceId name v).name = name) ∧
    (∀ (instanceId : String) (entries : List (String × AttrValue)),
      (entries.map Prod.fst).Nodup →
      ((((entries.filter fun p => !isReserved p.1).map fun p =>
        propOf instanceId p.1 p.2)).map fun p => p.id).Nodup) := by
  refine ⟨fun iid entries s => processAttrs_props entries iid s,
    fun i n v => ⟨rfl, rfl, rfl⟩, ?_⟩
  intro instanceId entries hnd
  have hmm : (((entries.filter fun p => !isReserved p.1).map fun p =>
      propOf instanceId p.1 p.2)).map (fun p => p.id) =
      (((entries.filter fun p => !isReserved p.1).map Prod.fst).map
        fun n => instanceId ++ ":" ++ n) := by
    rw [List.map_map, List.map_map]
    rfl
  rw [hmm]
  have hinj : Function.Injective (fun n => instanceId ++ ":" ++ n) := by
    intro a b hab
    exact stringAppend_left_inj (instanceId ++ ":") hab
  refine List.Nodup.map hinj ?_
  exact List.Nodup.sublist (List.Sublist.map _ (List.filter_sublist _)) hnd

theorem c7_witness :
    (([("a", AttrValue.str "x"), ("b", AttrValue.num 1)] :
        List (String × AttrValue)).map Prod.fst).Nodup ∧
      (((([("a", AttrValue.str "x"), ("b", AttrValue.num 1)] :
          List (String × AttrValue)).filter fun p => !isReserved p.1).map fun p =>
        propOf "5" p.1 p.2).map fun p => p.id).Nodup :=
  ⟨by decide, c7_reserved_and_prop_ids.2.2 "5"
    [("a", AttrValue.str "x"), ("b", AttrValue.num 1)] (by decide)⟩

/-! ### Style attachment and the single breakpoint -/

theorem processAttrs_append (xs ys : List (String × AttrValue)) (iid : String)
    (s : RenderState) :
    processAttrs iid (xs ++ ys) s = processAttrs iid ys (processAttrs iid xs s) := by
  match xs with
  | [] => rfl
  | (name, value) :: rest =>
    rw [List.cons_append]
    simp only [processAttrs]
    by_cases h₁ : name = "ws:id" ∨ name = "ws:label" ∨ name = "children"
    · rw [if_pos h₁, if_pos h₁]
      exact processAttrs_append rest ys iid s
    · rw [if_neg h₁, if_neg h₁]
      by_cases h₂ : name = "ws:style"
      · rw [if_pos h₂, if_pos h₂]
        exact processAttrs_append rest ys iid _
      · rw [if_neg h₂, if_neg h₂]
        exact processAttrs_append rest ys iid _

theorem processAttrs_no_style (entries : List (String × AttrValue)) (iid : String)
    (s : RenderState) (h : (entries.all fun p => p.1 != "ws:style") = true) :
    (processAttrs iid entries s).styleSources = s.styleSources ∧
    (processAttrs iid entries s).styleSourceSelections = s.styleSourceSelections ∧
    (processAttrs iid entries s).styles = s.styles ∧
    (processAttrs iid entries s).breakpoints = s.breakpoints := by
  match entries with
  | [] => exact ⟨rfl, rfl, rfl, rfl⟩
  | (name, value) :: rest =>
    rw [List.all_cons, Bool.and_eq_true] at h
    have hns : ¬name = "ws:style" := by simpa using h.1
    unfold processAttrs
    by_cases h₁ : name = "ws:id" ∨ name = "ws:label" ∨ name = "children"
    · rw [if_pos h₁]
      exact processAttrs_no_style rest iid s h.2
    · rw [if_neg h₁, if_neg hns]
      exact processAttrs_no_style rest iid
        { s with props := s.props ++ [propOf iid name value] } h.2

theorem processAttrs_style_entry (iid : String) (l : List TemplateStyleDecl)
    (s : RenderState) (hbp : BpOk s) :
    (processAttrs iid [("ws:style", AttrValue.styles l)] s).styleSources =
      s.styleSources ++ [{ typ := "local", id := iid ++ ":" ++ "ws:style" }] ∧
    (processAttrs iid [("ws:style", AttrValue.styles l)] s).styleSourceSelections =
      s.styleSourceSelections ++
        [{ instanceId := iid, values := [iid ++ ":" ++ "ws:style"] }] ∧
    (processAttrs iid [("ws:style", AttrValue.styles l)] s).styles =
      s.styles ++ (l.map fun d =>
        { breakpointId := "base", styleSourceId := iid ++ ":" ++ "ws:style"
          property := d.property, value := d.value }) ∧
    (processAttrs iid [("ws:style", AttrValue.styles l)] s).breakpoints =
      (if l.isEmpty then s.breakpoints else [baseBreakpoint]) ∧
    BpOk (processAttrs iid [("ws:style", AttrValue.styles l)] s) := by
  have e₁ : processAttrs iid [("ws:style", AttrValue.styles l)] s =
      pushStyles (iid ++ ":" ++ "ws:style") l { s with
        styleSources := s.styleSources ++
          [{ typ := "local", id := iid ++ ":" ++ "ws:style" }]
        styleSourceSelections := s.styleSourceSelections ++
          [{ instanceId := iid, values := [iid ++ ":" ++ "ws:style"] }] } := by
    unfold processAttrs
    rw [if_neg (by decide), if_pos rfl]
    rfl
  rw [e₁]
  set s₁ : RenderState := { s with
    styleSources := s.styleSources ++
      [{ typ := "local", id := iid ++ ":" ++ "ws:style" }]
    styleSourceSelections := s.styleSourceSelections ++
      [{ instanceId := iid, values := [iid ++ ":" ++ "ws:style"] }] } with hs₁
  have hbp₁ : BpOk s₁ := hbp
  obtain ⟨p₁, p₂, p₃, p₄, p₅, p₆, p₇, p₈, p₉⟩ :=
    pushStyles_spec l (iid ++ ":" ++ "ws:style") hbp₁
  exact ⟨by rw [p₈], by rw [p₉], by rw [p₁], by rw [p₂], p₃⟩

/-- C6: a concrete node declaring `n ≥ 1` local style declarations
contributes exactly one `StyleSource` with id `${instanceId}:ws:style`
and type `"local"`, exactly one `StyleSourceSelection` for that instance
listing exactly that one source, and `n` `StyleDecl`s all referencing
the lazily created default breakpoint `"base"`; and the breakpoint list
of the whole output contains exactly the one default entry when some
concrete node declares at least one style declaration, and is empty
otherwise. -/
theorem c6_style_attachment :
    (∀ (instanceId : String) (l : List TemplateStyleDecl)
      (pre post : List (String × AttrValue)) (s : RenderState), BpOk s →
      (pre.all fun p => p.1 != "ws:style") = true →
      (post.all fun p => p.1 != "ws:style") = true →
      l ≠ [] →
      (processAttrs instanceId (pre ++ ("ws:style", AttrValue.styles l) :: post) s).styleSources =
        s.styleSources ++ [{ typ := "local", id := instanceId ++ ":" ++ "ws:style" }] ∧
      (processAttrs instanceId
          (pre ++ ("ws:style", AttrValue.styles l) :: post) s).styleSourceSelections =
        s.styleSourceSelections ++
          [{ instanceId := instanceId, values := [instanceId ++ ":" ++ "ws:style"] }] ∧
      (processAttrs instanceId (pre ++ ("ws:style", AttrValue.styles l) :: post) s).styles =
        s.styles ++ (l.map fun d =>
          { breakpointId := "base", styleSourceId := instanceId ++ ":" ++ "ws:style"
            property := d.property, value := d.value }) ∧
      (processAttrs instanceId
          (pre ++ ("ws:style", AttrValue.styles l) :: post) s).breakpoints =
        [baseBreakpoint]) ∧
    (∀ root : JsxNode, (renderTemplate root).breakpoints =
      (if declaresStylesNode root then [baseBreakpoint] else [])) := by
  constructor
  · intro instanceId l pre post s hbp hpre hpost hne
    have hsplit : pre ++ ("ws:style", AttrValue.styles l) :: post =
        (pre ++ [("ws:style", AttrValue.styles l)]) ++ post := by simp
    rw [hsplit, processAttrs_append, processAttrs_append]
    obtain ⟨q₁, q₂, q₃, q₄⟩ := processAttrs_no_style pre instanceId s hpre
    have hbpPre : BpOk (processAttrs instanceId pre s) := bpOk_of_eq hbp q₄
    obtain ⟨t₁, t₂, t₃, t₄, t₅⟩ :=
      processAttrs_style_entry instanceId l (processAttrs instanceId pre s) hbpPre
    have hlemp : l.isEmpty = false := by
      cases l with
      | nil => exact absurd rfl hne
      | cons d rest => rfl
    rw [hlemp] at t₄
    obtain ⟨w₁, w₂, w₃, w₄⟩ := processAttrs_no_style post instanceId
      (processAttrs instanceId [("ws:style", AttrValue.styles l)]
        (processAttrs instanceId pre s)) hpost
    refine ⟨?_, ?_, ?_, ?_⟩
    · rw [w₁, t₁, q₁]
    · rw [w₂, t₂, q₂]
    · rw [w₃, t₃, q₃]
    · rw [w₄, t₄]
      simp
  · intro root
    exact (bpAll (nodeSize root)).1 root initialState (le_refl _) initialState_bpOk

theorem c6_witness :
    (processAttrs "0" ([("data-a", AttrValue.str "1")] ++
        ("ws:style", AttrValue.styles [{ property := "color", value := "red" },
          { property := "width", value := "10px" }]) :: []) initialState).styles =
      initialState.styles ++
        (([{ property := "color", value := "red" },
          { property := "width", value := "10px" }] : List TemplateStyleDecl).map
          fun d => ({ breakpointId := "base", styleSourceId := "0" ++ ":" ++ "ws:style"
                      property := d.property, value := d.value } : StyleDecl)) ∧
    (processAttrs "0" ([("data-a", AttrValue.str "1")] ++
        ("ws:style", AttrValue.styles [{ property := "color", value := "red" },
          { property := "width", value := "10px" }]) :: []) initialState).breakpoints =
      [baseBreakpoint] := by
  have h := c6_style_attachment.1 "0"
    [{ property := "color", value := "red" }, { property := "width", value := "10px" }]
    [("data-a", AttrValue.str "1")] [] initialState initialState_bpOk
    (by decide) (by decide) (by decide)
  exact ⟨h.2.2.1, h.2.2.2⟩
